import Mathlib

/-!
# wiki-race: bidirectional breadth-first search over lazily fetched links

A shallow embedding of `src/puregorace/puregorace.go`.

Go strings are modelled by Lean `String` (a sequence of Unicode scalar values, that is,
a Go string holding valid UTF-8).  `len` is the UTF-8 byte length.  The functions of the
Go package `strings` that the program calls are modelled on `List Char`.

The task counters, of Go type `int`, are integers with two's complement wrap-around in 64
bits (`wrapInt`).  Lengths and indices of slices and strings are natural numbers; they are
compared and assigned, never added to.
-/

set_option autoImplicit false

namespace PureGoRace

/-! ## The pieces of package `strings` the program uses -/

/-- Go `strings.HasPrefix(s, pre)`. -/
def HasPrefix (s pre : String) : Bool :=
  pre.data.isPrefixOf s.data

/-- Scan of `strings.Replace(s, old, new, -1)` for a non-empty `old`: the first argument
counts the characters of a match that are still to be skipped. -/
def replaceScan (old new : List Char) : Nat → List Char → List Char
  | _, [] => []
  | skip + 1, _ :: cs => replaceScan old new skip cs
  | 0, c :: cs =>
      if old.isPrefixOf (c :: cs) then new ++ replaceScan old new (old.length - 1) cs
      else c :: replaceScan old new 0 cs

/-- Go `strings.Replace(s, old, new, -1)` (every non-overlapping match, left to right),
for a non-empty `old`. -/
def ReplaceAll (s old new : String) : String :=
  ⟨replaceScan old.data new.data 0 s.data⟩

/-- Scan of `strings.Count(s, sub)` for a non-empty `sub`: the first argument counts the
characters of a match that are still to be skipped. -/
def countScan (sub : List Char) : Nat → List Char → Nat
  | _, [] => 0
  | skip + 1, _ :: cs => countScan sub skip cs
  | 0, c :: cs =>
      if sub.isPrefixOf (c :: cs) then countScan sub (sub.length - 1) cs + 1
      else countScan sub 0 cs

/-- Go `strings.Count(s, sub)`: the number of non-overlapping instances of a non-empty
`sub` in `s`. -/
def Count (s sub : String) : Nat :=
  countScan sub.data 0 s.data

/-- Go `strings.TrimRight(s, cutset)`: `s` without its trailing characters that occur in
`cutset`. -/
def TrimRight (s cutset : String) : String :=
  ⟨s.data.rdropWhile (fun c => decide (c ∈ cutset.data))⟩

/-- Go `len(s)`: the number of bytes of the UTF-8 encoding. -/
def len (s : String) : Nat :=
  (s.data.map Char.utf8Size).sum

/-! ## Data model -/

/-- The Go struct `node`; a nil `parent` pointer is `none`. -/
inductive node where
  | mk (parent : Option node) (pathId : Int) (url : String)

namespace node

/-- Equality of nodes is decidable (field by field, parents recursively). -/
def decEq : (a b : node) → Decidable (a = b)
  | mk none i1 u1, mk none i2 u2 =>
      if h : i1 = i2 ∧ u1 = u2 then isTrue (by rw [h.1, h.2])
      else isFalse (fun e => h (by injection e with _ hi hu; exact ⟨hi, hu⟩))
  | mk none _ _, mk (some _) _ _ => isFalse (fun e => by injection e with hp; cases hp)
  | mk (some _) _ _, mk none _ _ => isFalse (fun e => by injection e with hp; cases hp)
  | mk (some a) i1 u1, mk (some b) i2 u2 =>
      match decEq a b with
      | isTrue hab =>
          if h : i1 = i2 ∧ u1 = u2 then isTrue (by rw [hab, h.1, h.2])
          else isFalse (fun e => h (by injection e with _ hi hu; exact ⟨hi, hu⟩))
      | isFalse hab => isFalse (fun e => hab (by injection e with hp; injection hp))

instance : DecidableEq node := decEq

def parent : node → Option node
  | mk p _ _ => p

def pathId : node → Int
  | mk _ i _ => i

def url : node → String
  | mk _ _ u => u

end node

def PathIdFromTheFront : Int := 1

def PathIdFromTheRear : Int := 2

/-! ## Link filter -/

def prefixesToExclude : List String :=
  [ "/wiki/File",
    "/wiki/Geographic_coordinate_system",
    "/wiki/Help",
    "/wiki/ISBN_",
    "/wiki/ISSN_",
    "/wiki/Main_Page",
    "/wiki/Special",
    "/wiki/Wayback_Machine",
    "/wiki/Wikipedia:" ]

/-- Go `containsExcludedPrefix`: the loop returns at the first listed entry `href` starts
with. -/
def containsExcludedPrefix (href : String) : Bool :=
  prefixesToExclude.any (fun p => HasPrefix href p)

def isWikiArticle (href : String) : Bool :=
  !containsExcludedPrefix href && HasPrefix href "/wiki/"

/-! ## Keys from titles -/

def buildNodeFromArticle (article : String) (pathId : Int) : node :=
  node.mk none pathId ("https://en.m.wikipedia.org/wiki/" ++ ReplaceAll article " " "_")

def translateStringToWikiUrl (articleName : String) : String :=
  "https://en.wikipedia.org/wiki/" ++ ReplaceAll articleName " " "_"

/-! ## Path reconstruction -/

/-- The first loop of `getPath`, entered with a non-nil `node1`: walks up to the root,
putting each key and the delimiter in front of `path`. -/
def getPathFront : node → String → String
  | node.mk none _ u, path => u ++ " -> " ++ path
  | node.mk (some p) _ u, path => getPathFront p (u ++ " -> " ++ path)

/-- The second loop of `getPath`, entered with a non-nil `node2`: walks up to the root,
appending the delimiter and each key to `path`. -/
def getPathRear : node → String → String
  | node.mk none _ u, path => path ++ " -> " ++ u
  | node.mk (some p) _ u, path => getPathRear p (path ++ " -> " ++ u)

/-- Go `getPath`; both pointers are addresses of local variables at the only call site,
hence never nil. -/
def getPath (node1 node2 : node) : String :=
  let path := TrimRight (getPathFront node1 "") " -> "
  match node2.parent with
  | none => path
  | some p => getPathRear p path

/-! ## Path selection -/

/-- Go `filterShortestPath`; `none` is the index-out-of-range panic of `paths[0]` on an
empty slice.  The loop state is `(shortestLength, index)`. -/
def filterShortestPath (paths : List String) : Option String :=
  match paths with
  | [] => none
  | p0 :: _ =>
      let st := paths.enum.foldl
        (fun (st : Nat × Nat) (ip : Nat × String) =>
          if Count ip.2 "->" < st.1 then (Count ip.2 "->", ip.1) else st)
        (len p0, 0)
      paths[st.2]?

/-! ## The link lookup collaborator -/

/-- What fetching one page can do: `http.Get` fails, the body fails to load into a
document, or a document comes back, given by the `href` attribute (if any) of each of
its `a` elements in document order. -/
inductive PageFetch where
  | getError
  | parseError
  | document (anchors : List (Option String))

/-- The outside world of one search: the outcome of fetching each URL. -/
abbrev Web := String → PageFetch

/-- Go `getWikiURL`; the element is given by its `href` attribute. -/
def getWikiURL (element : Option String) : String :=
  match element with
  | some href => if isWikiArticle href then "https://en.m.wikipedia.org" ++ href else ""
  | none => ""

/-- Result of `getChildWikiLinksForWikiPage`: the pair `(links, nil)`, the pair
`(nil, err)`, or no return at all because `log.Fatal` ended the process. -/
inductive LinksResult where
  | ok (links : List String)
  | error
  | fatal
  deriving DecidableEq

def getChildWikiLinksForWikiPage (web : Web) (wikiUrl : String) : LinksResult :=
  match web wikiUrl with
  | PageFetch.getError => LinksResult.error
  | PageFetch.parseError => LinksResult.fatal
  | PageFetch.document anchors => LinksResult.ok (anchors.map getWikiURL)

/-- Go `passChildNodesToChan`: the batch sent on the channel, or `none` when the process
was ended by `log.Fatal` before anything was sent. -/
def passChildNodesToChan (web : Web) (a : node) (pathNum : Int) : Option (List node) :=
  match getChildWikiLinksForWikiPage web a.url with
  | LinksResult.fatal => none
  | LinksResult.error => some []
  | LinksResult.ok links =>
      some ((links.filter (fun link => link ≠ "")).map (fun link => node.mk (some a) pathNum link))

/-! ## Frontier processing -/

/-- The largest value of a Go `int`, 64 bits wide: `math.MaxInt64`. -/
def MaxInt : Int := 2 ^ 63 - 1

/-- The smallest value of a Go `int`, 64 bits wide: `math.MinInt64`. -/
def MinInt : Int := -(2 ^ 63)

/-- The value a Go `int` takes for the arithmetic result `x`: two's complement
wrap-around in 64 bits. -/
def wrapInt (x : Int) : Int :=
  (x + 2 ^ 63) % 2 ^ 64 - 2 ^ 63

/-- Go `processNode`.  The map is an association list, written only at its head and read
with `List.lookup`.  The channel `setChan` is represented by the lookup tasks launched
against it so far, each with the arguments of its `go` statement.  `threadCount++` is an
`int` increment, which wraps around. -/
def processNode (urlToNodeMap : List (String × node)) (urlsToVisitQueue : List node)
    (threadCount : Int) (setChan : List (node × Int)) (pathId : Int) (paths : List String) :
    List (String × node) × List node × Int × List (node × Int) × List String :=
  match urlsToVisitQueue with
  | [] => (urlToNodeMap, urlsToVisitQueue, threadCount, setChan, paths)
  | poppedNode :: rest =>
      match urlToNodeMap.lookup poppedNode.url with
      | some val =>
          if val.pathId ≠ pathId then
            (urlToNodeMap, rest, threadCount, setChan, paths ++ [getPath poppedNode val])
          else (urlToNodeMap, rest, threadCount, setChan, paths)
      | none =>
          ((poppedNode.url, poppedNode) :: urlToNodeMap, rest, wrapInt (threadCount + 1),
            setChan ++ [(poppedNode, pathId)], paths)

/-! ## Round driver -/

/-- How a call can end. -/
inductive Outcome (α : Type) where
  | returned (a : α)
  | fatalExit
  | panicked
  | deadlocked
  | outOfFuel
  deriving DecidableEq

/-- The loop of `addThreadToNextQueue`, with the number of passes it still has to make.
`ch` lists what the channel delivers, in the order of receipt: a batch, or `none` for a
task that ended the process.  Receiving from a channel nobody sends on blocks for ever. -/
def receiveBatches : Nat → List (Option (List node)) → List node → Outcome (List node)
  | 0, _, nextQueue => Outcome.returned nextQueue
  | _ + 1, [], _ => Outcome.deadlocked
  | _ + 1, none :: _, _ => Outcome.fatalExit
  | passes + 1, some batch :: ch, nextQueue => receiveBatches passes ch (nextQueue ++ batch)

/-- Go `addThreadToNextQueue`: the loop `for i := 0; i < threadCount; i++` makes
`threadCount` passes, and none when `threadCount` is not positive. -/
def addThreadToNextQueue (threadCount : Int) (ch : List (Option (List node)))
    (nextQueue : List node) : Outcome (List node) :=
  receiveBatches threadCount.toNat ch nextQueue

/-- The variables of one round of `GetShortestPath`. -/
structure Round where
  urlToNodeMap : List (String × node)
  q1 : List node
  q2 : List node
  chan1ThreadCount : Int
  chan2ThreadCount : Int
  chan1 : List (node × Int)
  chan2 : List (node × Int)
  paths : List String

/-- One pass through the body of the inner loop of `GetShortestPath`. -/
def Round.step (r : Round) : Round :=
  match processNode r.urlToNodeMap r.q1 r.chan1ThreadCount r.chan1 PathIdFromTheFront r.paths with
  | (m1, q1, c1, ch1, paths1) =>
      match processNode m1 r.q2 r.chan2ThreadCount r.chan2 PathIdFromTheRear paths1 with
      | (m2, q2, c2, ch2, paths2) => ⟨m2, q1, q2, c1, c2, ch1, ch2, paths2⟩

/-- The inner loop `for len(q1) > 0 || len(q2) > 0`, run for at most the given number of
passes. -/
def drainQueues : Nat → Round → Round
  | 0, r => r
  | n + 1, r => if 0 < r.q1.length ∨ 0 < r.q2.length then drainQueues n r.step else r

/-- What a channel delivers: the tasks launched against it finish in the order the
scheduler `sched` decides. -/
def deliveries (web : Web) (sched : List (node × Int) → List (node × Int))
    (ch : List (node × Int)) : List (Option (List node)) :=
  (sched ch).map (fun t => passChildNodesToChan web t.1 t.2)

/-- The inner loop of one round, entered with fresh counters, channels and `paths`.  It
gets as many passes as both queues hold nodes, which empties them. -/
def runRound (urlToNodeMap : List (String × node)) (q1 q2 : List node) : Round :=
  drainQueues (q1.length + q2.length) ⟨urlToNodeMap, q1, q2, 0, 0, [], [], []⟩

/-- The fan-in at the end of a round without a meeting: both calls of
`addThreadToNextQueue`, giving the map and the two queues of the next round. -/
def collectRound (web : Web) (sched : List (node × Int) → List (node × Int)) (r : Round) :
    Outcome (List (String × node) × List node × List node) :=
  match addThreadToNextQueue r.chan1ThreadCount (deliveries web sched r.chan1) [] with
  | Outcome.returned nextQ1 =>
      match addThreadToNextQueue r.chan2ThreadCount (deliveries web sched r.chan2) [] with
      | Outcome.returned nextQ2 => Outcome.returned (r.urlToNodeMap, nextQ1, nextQ2)
      | Outcome.fatalExit => Outcome.fatalExit
      | Outcome.panicked => Outcome.panicked
      | Outcome.deadlocked => Outcome.deadlocked
      | Outcome.outOfFuel => Outcome.outOfFuel
  | Outcome.fatalExit => Outcome.fatalExit
  | Outcome.panicked => Outcome.panicked
  | Outcome.deadlocked => Outcome.deadlocked
  | Outcome.outOfFuel => Outcome.outOfFuel

/-- The outer loop of `GetShortestPath`, run for at most `fuel` rounds.  In a round with a
meeting the driver returns without receiving from the channels. -/
def searchLoop (web : Web) (sched : List (node × Int) → List (node × Int)) :
    Nat → List (String × node) → List node → List node → Outcome (String × Bool)
  | 0, _, _, _ => Outcome.outOfFuel
  | fuel + 1, urlToNodeMap, nextQ1, nextQ2 =>
      if 0 < nextQ1.length ∨ 0 < nextQ2.length then
        if (runRound urlToNodeMap nextQ1 nextQ2).paths.length ≠ 0 then
          match filterShortestPath (runRound urlToNodeMap nextQ1 nextQ2).paths with
          | some p => Outcome.returned (p, true)
          | none => Outcome.panicked
        else
          match collectRound web sched (runRound urlToNodeMap nextQ1 nextQ2) with
          | Outcome.returned (m, q1, q2) => searchLoop web sched fuel m q1 q2
          | Outcome.fatalExit => Outcome.fatalExit
          | Outcome.panicked => Outcome.panicked
          | Outcome.deadlocked => Outcome.deadlocked
          | Outcome.outOfFuel => Outcome.outOfFuel
      else Outcome.returned ("No Path Found.", false)

/-- Go `GetShortestPath`, against the world `web`, with the lookup tasks of a round
finishing in the order `sched` decides, for at most `fuel` rounds. -/
def GetShortestPath (web : Web) (sched : List (node × Int) → List (node × Int)) (fuel : Nat)
    (startArticle destinationArticle : String) : Outcome (String × Bool) :=
  searchLoop web sched fuel []
    [buildNodeFromArticle startArticle PathIdFromTheFront]
    [buildNodeFromArticle destinationArticle PathIdFromTheRear]

/-! ## Notions the statements below are written in -/

/-- The string `s` begins with `p`. -/
def BeginsWith (s p : String) : Prop :=
  ∃ t : String, s = p ++ t

/-- The title `t` with every space replaced by an underscore and every other character
unchanged. -/
def spacesToUnderscores (t : String) : String :=
  ⟨t.data.map (fun c => if c = ' ' then '_' else c)⟩

/-- Number of hops of a rendered path: the occurrences of the arrow in it. -/
def hops (p : String) : Nat :=
  Count p "->"

/-- The keys a lookup of `key` contributes to the next frontier. -/
def neighbours (web : Web) (key : String) : List String :=
  match getChildWikiLinksForWikiPage web key with
  | LinksResult.ok links => links.filter (fun link => link ≠ "")
  | LinksResult.error => []
  | LinksResult.fatal => []

/-- The key of the root node built from a title. -/
def keyOf (article : String) : String :=
  (buildNodeFromArticle article PathIdFromTheFront).url

/-- The state in which the outer loop of `GetShortestPath` enters its round `n` (counted
from 0): defined when every earlier round ran with a non-empty queue, found no meeting
and collected all its batches. -/
def roundStart (web : Web) (sched : List (node × Int) → List (node × Int))
    (startArticle destinationArticle : String) :
    Nat → Option (List (String × node) × List node × List node)
  | 0 => some ([], [buildNodeFromArticle startArticle PathIdFromTheFront],
      [buildNodeFromArticle destinationArticle PathIdFromTheRear])
  | n + 1 =>
      match roundStart web sched startArticle destinationArticle n with
      | none => none
      | some (m, q1, q2) =>
          if 0 < q1.length ∨ 0 < q2.length then
            if (runRound m q1 q2).paths.length ≠ 0 then none
            else
              match collectRound web sched (runRound m q1 q2) with
              | Outcome.returned st => some st
              | _ => none
          else none

/-! ## Example worlds -/

/-- Two pages that both link to a third one. -/
def webCommon : Web := fun u =>
  if u = "https://en.m.wikipedia.org/wiki/S" then PageFetch.document [some "/wiki/X"]
  else if u = "https://en.m.wikipedia.org/wiki/D" then PageFetch.document [some "/wiki/X"]
  else PageFetch.document []

/-- A world with the links S → A → B → D and S → C → Y ← E ← D. -/
def webDetour : Web := fun u =>
  if u = "https://en.m.wikipedia.org/wiki/S" then
    PageFetch.document [some "/wiki/A", some "/wiki/C"]
  else if u = "https://en.m.wikipedia.org/wiki/A" then PageFetch.document [some "/wiki/B"]
  else if u = "https://en.m.wikipedia.org/wiki/B" then PageFetch.document [some "/wiki/D"]
  else if u = "https://en.m.wikipedia.org/wiki/C" then PageFetch.document [some "/wiki/Y"]
  else if u = "https://en.m.wikipedia.org/wiki/D" then PageFetch.document [some "/wiki/E"]
  else if u = "https://en.m.wikipedia.org/wiki/E" then PageFetch.document [some "/wiki/Y"]
  else PageFetch.document []

/-- Two pages with one link each, to pages that cannot be fetched. -/
def webApart : Web := fun u =>
  if u = "https://en.m.wikipedia.org/wiki/S" then PageFetch.document [some "/wiki/A", none]
  else if u = "https://en.m.wikipedia.org/wiki/D" then
    PageFetch.document [some "/wiki/B", some "/wiki/Special:Random"]
  else PageFetch.getError

/-- A world in which the body of every page fails to load. -/
def webBroken : Web := fun _ => PageFetch.parseError

/-! ## The path the reconstruction is meant to render -/

/-- The keys of the predecessor chain of a node, root first, the node last. -/
def keysFromRoot : node → List String
  | node.mk none _ u => [u]
  | node.mk (some p) _ u => keysFromRoot p ++ [u]

/-- The keys of the predecessor chain of a node, the node first, root last. -/
def keysToRoot : node → List String
  | node.mk none _ u => [u]
  | node.mk (some p) _ u => u :: keysToRoot p

/-- The keys of the chain of `a` in root-to-`a` order, followed by the keys of the chain
of `b` from the predecessor of `b` up to its root. -/
def meetingKeys (a b : node) : List String :=
  keysFromRoot a ++ (keysToRoot b).tail

/-- The keys of a meeting joined by the delimiter, every key intact. -/
def joinedPath (a b : node) : String :=
  " -> ".intercalate (meetingKeys a b)

/-! ## Example nodes -/

/-- The root of the origin side for the title `S`. -/
def rootS : node := buildNodeFromArticle "S" PathIdFromTheFront

/-- The root of the destination side for the title `D`. -/
def rootD : node := buildNodeFromArticle "D" PathIdFromTheRear

/-- The page `X` as the origin side discovers it on the page of `S`. -/
def frontX : node := node.mk (some rootS) PathIdFromTheFront "https://en.m.wikipedia.org/wiki/X"

/-- The page `X` as the destination side discovers it on the page of `D`. -/
def rearX : node := node.mk (some rootD) PathIdFromTheRear "https://en.m.wikipedia.org/wiki/X"

/-- A page whose title ends in a hyphen, as the origin side discovers it. -/
def frontDash : node :=
  node.mk (some rootS) PathIdFromTheFront "https://en.m.wikipedia.org/wiki/C-"

/-- The same page as the destination side discovers it. -/
def rearDash : node :=
  node.mk (some rootD) PathIdFromTheRear "https://en.m.wikipedia.org/wiki/C-"

/-- A node with the key `-`, found by the origin side on a page with the same key, itself
found on the page of `S`. -/
def frontHyphen : node :=
  node.mk (some (node.mk (some rootS) PathIdFromTheFront "-")) PathIdFromTheFront "-"

/-- A node with the key `-`, found by the destination side on the page of `D`. -/
def rearHyphen : node :=
  node.mk (some rootD) PathIdFromTheRear "-"

/-! ## Links between keys -/

/-- A sequence of keys in which every key links to the next one. -/
def LinkedChain (web : Web) (keys : List String) : Prop :=
  List.Chain' (fun a b => b ∈ neighbours web a) keys

/-- The key `b` is reached from the key `a` by following links. -/
def Reach (web : Web) (a b : String) : Prop :=
  Relation.ReflTransGen (fun x y => y ∈ neighbours web x) a b

/-! ## Invariants of a search in which the sides cannot meet

`Good side key` says that `key` may be discovered by `side`. -/

/-- Every entry of the registry is stored under its own key, which its side may discover,
and no key is stored twice. -/
def RegistryOK (Good : Int → String → Prop) (m : List (String × node)) : Prop :=
  (∀ k n, (k, n) ∈ m → n.url = k ∧ Good n.pathId k) ∧ (m.map Prod.fst).Nodup

/-- Every node of a queue of `side` carries that side and a key the side may discover. -/
def QueueOK (Good : Int → String → Prop) (side : Int) (q : List node) : Prop :=
  ∀ n ∈ q, n.pathId = side ∧ Good side n.url

/-- Every task launched against the channel of `side` tags its results with that side and
looks up a key the side may discover. -/
def ChanOK (Good : Int → String → Prop) (side : Int) (ch : List (node × Int)) : Prop :=
  ∀ t ∈ ch, t.2 = side ∧ Good side t.1.url

/-- The state of a round that has found no meeting; `base` is the size of the registry when
the round began. -/
structure RoundOK (Good : Int → String → Prop) (base : Nat) (r : Round) : Prop where
  reg : RegistryOK Good r.urlToNodeMap
  front : QueueOK Good PathIdFromTheFront r.q1
  rear : QueueOK Good PathIdFromTheRear r.q2
  tasks1 : ChanOK Good PathIdFromTheFront r.chan1
  tasks2 : ChanOK Good PathIdFromTheRear r.chan2
  count1 : r.chan1ThreadCount = r.chan1.length
  count2 : r.chan2ThreadCount = r.chan2.length
  quiet : r.paths = []
  size : (r.urlToNodeMap.length : Int) = base + r.chan1ThreadCount + r.chan2ThreadCount

/-- The keys of `webApart` a search from `S` and `D` can come across. -/
def keysApart : List String :=
  ["https://en.m.wikipedia.org/wiki/S", "https://en.m.wikipedia.org/wiki/A",
    "https://en.m.wikipedia.org/wiki/D", "https://en.m.wikipedia.org/wiki/B"]

/-! ## The service around the search -/

/-- The Go struct `wikiRaceResponse`. -/
structure wikiRaceResponse where
  Completed : Bool
  Destination : String
  ElapsedTimeSec : String
  Message : String
  Path : String
  Start : String
  deriving DecidableEq

/-- Go `queryIsValid`.  `url.Values` is a map from a parameter name to its values, here an
association list read with `List.lookup`; a missing name yields the nil slice and
`ok = false`.  Indexing an empty slice with `[0]` panics. -/
def queryIsValid (query : List (String × List String)) : Outcome (Bool × String) :=
  match (query.lookup "start").getD [] with
  | [] => Outcome.panicked
  | startingArticle :: _ =>
      let missing1 : Bool := !(query.lookup "start").isSome || decide (len startingArticle < 1)
      let errorMsg1 := if missing1 then "" ++ "Url param 'start' is missing. " else ""
      let paramErrors1 := if missing1 then true else false
      match (query.lookup "destination").getD [] with
      | [] => Outcome.panicked
      | destinationArticle :: _ =>
          let missing2 : Bool :=
            !(query.lookup "destination").isSome || decide (len destinationArticle < 1)
          let errorMsg2 :=
            if missing2 then errorMsg1 ++ "Url param 'destination' is missing. " else errorMsg1
          let paramErrors2 := if missing2 then true else paramErrors1
          if paramErrors2 = true then Outcome.returned (false, errorMsg2)
          else Outcome.returned (true, "")

/-- Go `getArticlesFromQuery`. -/
def getArticlesFromQuery (query : List (String × List String)) : Outcome (String × String) :=
  match (query.lookup "start").getD [], (query.lookup "destination").getD [] with
  | s :: _, d :: _ => Outcome.returned (s, d)
  | _, _ => Outcome.panicked

/-- Go `getErrorResponse`. -/
def getErrorResponse (errorMsg : String) : wikiRaceResponse :=
  { Completed := false, Destination := "", ElapsedTimeSec := "", Message := errorMsg,
    Path := "", Start := "" }

/-- What `http.Get` gives `wikiArticleExists`: the status code of a response, or an error,
which comes with a response only when a redirect was refused. -/
inductive PageStatus where
  | status (code : Nat)
  | failed (resp : Option Nat)

/-- Go `wikiArticleExists`; reading `resp.StatusCode` of a nil response panics. -/
def wikiArticleExists (get : String → PageStatus) (article : String) : Outcome (Bool × String) :=
  match get (translateStringToWikiUrl article) with
  | PageStatus.failed none => Outcome.panicked
  | PageStatus.failed (some _) =>
      Outcome.returned (false, "The article " ++ article ++ " does not exist.")
  | PageStatus.status code =>
      if code = 404 then Outcome.returned (false, "The article " ++ article ++ " does not exist.")
      else Outcome.returned (true, "")

/-- Sequencing of calls: what follows runs only when the call returned. -/
def Outcome.bind {α β : Type} (x : Outcome α) (f : α → Outcome β) : Outcome β :=
  match x with
  | Outcome.returned a => f a
  | Outcome.fatalExit => Outcome.fatalExit
  | Outcome.panicked => Outcome.panicked
  | Outcome.deadlocked => Outcome.deadlocked
  | Outcome.outOfFuel => Outcome.outOfFuel

/-- Go `WikiRacePureGoHandler`: the record it encodes into the response, `none` when it
returns without writing one.  `elapsed` is the text `fmt.Sprintf` makes of the measured
time. -/
def WikiRacePureGoHandler (get : String → PageStatus) (web : Web)
    (sched : List (node × Int) → List (node × Int)) (fuel : Nat) (elapsed : String)
    (query : List (String × List String)) : Outcome (Option wikiRaceResponse) :=
  (queryIsValid query).bind fun v1 =>
    if !v1.1 then Outcome.returned (some (getErrorResponse v1.2))
    else
      (getArticlesFromQuery query).bind fun articles =>
        (wikiArticleExists get articles.1).bind fun e1 =>
          if !e1.1 then Outcome.returned (some (getErrorResponse e1.2))
          else
            (wikiArticleExists get articles.2).bind fun e2 =>
              if !e2.1 then Outcome.returned (some (getErrorResponse e2.2))
              else if e1.1 && e2.1 then
                (GetShortestPath web sched fuel articles.1 articles.2).bind fun res =>
                  Outcome.returned (some
                    { Completed := res.2, Destination := articles.2, ElapsedTimeSec := elapsed,
                      Message := "", Path := res.1, Start := articles.1 })
              else Outcome.returned none

/-- The keys as `getPath a b` writes them: those of `meetingKeys a b`, the key of `a` cut by
`strings.TrimRight`. -/
def renderedKeys (a b : node) : List String :=
  (keysFromRoot a).dropLast ++ TrimRight a.url " -> " :: (keysToRoot b).tail

/-! ## The two trees of a search -/

/-- A node is a root of the search from `s` to `d`, or it has a non-empty key among the
links the lookup returned for the key of its predecessor, the side of its predecessor, and
a predecessor of which the same holds. -/
def Descends (web : Web) (s d : String) : node → Prop
  | node.mk none i u =>
      (i = PathIdFromTheFront ∧ u = keyOf s) ∨ (i = PathIdFromTheRear ∧ u = keyOf d)
  | node.mk (some p) i u =>
      u ≠ "" ∧
      (∃ links, getChildWikiLinksForWikiPage web p.url = LinksResult.ok links ∧ u ∈ links) ∧
      i = p.pathId ∧ Descends web s d p

/-- Every node the registry, the queues and the launched tasks of a round hold has the
property `P`; the registry stores each node under its own key, and queues and tasks hold
nodes of their side only. -/
def RoundAll (P : node → Prop) (r : Round) : Prop :=
  (∀ k v, (k, v) ∈ r.urlToNodeMap → P v ∧ v.url = k) ∧
  (∀ x ∈ r.q1, P x ∧ x.pathId = PathIdFromTheFront) ∧
  (∀ x ∈ r.q2, P x ∧ x.pathId = PathIdFromTheRear) ∧
  (∀ t ∈ r.chan1, P t.1 ∧ t.1.pathId = PathIdFromTheFront ∧ t.2 = PathIdFromTheFront) ∧
  (∀ t ∈ r.chan2, P t.1 ∧ t.1.pathId = PathIdFromTheRear ∧ t.2 = PathIdFromTheRear)

/-! # Theorems -/

/-! ## Facts about the string functions -/

theorem hasPrefix_iff (s p : String) : HasPrefix s p = true ↔ BeginsWith s p := by
  unfold HasPrefix BeginsWith
  rw [List.isPrefixOf_iff_prefix]
  constructor
  · rintro ⟨t, ht⟩
    exact ⟨⟨t⟩, String.ext (by rw [String.data_append, ht])⟩
  · rintro ⟨t, ht⟩
    exact ⟨t.data, by rw [ht, String.data_append]⟩

theorem replaceScan_space (l : List Char) :
    replaceScan [' '] ['_'] 0 l = l.map (fun c => if c = ' ' then '_' else c) := by
  induction l with
  | nil => rfl
  | cons c cs ih =>
      by_cases h : c = ' '
      · subst h
        simp [replaceScan, ih]
      · have h2 : ¬ (' ' = c) := fun e => h e.symm
        simp [replaceScan, ih, h, h2]

theorem replaceAll_space (t : String) : ReplaceAll t " " "_" = spacesToUnderscores t := by
  unfold ReplaceAll spacesToUnderscores
  exact congrArg String.mk (replaceScan_space t.data)

theorem space_not_mem_spacesToUnderscores (t : String) :
    ' ' ∉ (spacesToUnderscores t).data := by
  unfold spacesToUnderscores
  simp only [List.mem_map, not_exists, not_and]
  intro c _ hc
  by_cases h : c = ' '
  · rw [if_pos h] at hc
    exact absurd hc (by decide)
  · rw [if_neg h] at hc
    exact h hc

/-! ## C8: the link filter -/

/-- C8, as stated, fails: `/wiki/Wayback_Machine` begins with `/wiki/` and with none of the
prefixes the claim lists, yet `isWikiArticle` rejects it. -/
theorem isWikiArticle_rejects_wayback_machine :
    BeginsWith "/wiki/Wayback_Machine" "/wiki/" ∧
    ¬ (BeginsWith "/wiki/Wayback_Machine" "/wiki/Special" ∨
       BeginsWith "/wiki/Wayback_Machine" "/wiki/Help" ∨
       BeginsWith "/wiki/Wayback_Machine" "/wiki/File" ∨
       BeginsWith "/wiki/Wayback_Machine" "/wiki/Main_Page" ∨
       BeginsWith "/wiki/Wayback_Machine" "/wiki/Wikipedia:" ∨
       BeginsWith "/wiki/Wayback_Machine" "/wiki/ISBN_" ∨
       BeginsWith "/wiki/Wayback_Machine" "/wiki/ISSN_" ∨
       BeginsWith "/wiki/Wayback_Machine" "/wiki/Geographic_coordinate_system") ∧
    isWikiArticle "/wiki/Wayback_Machine" = false := by
  simp only [← hasPrefix_iff]
  decide

/-- C8, amended: `isWikiArticle href` is true exactly when `href` begins with `/wiki/` and
with none of the nine excluded prefixes, `/wiki/Wayback_Machine` among them; so it is false
for an href that begins with an excluded prefix and true for every other href that begins
with `/wiki/`. -/
theorem isWikiArticle_iff (href : String) :
    isWikiArticle href = true ↔
      BeginsWith href "/wiki/" ∧
      ¬ (BeginsWith href "/wiki/File" ∨
         BeginsWith href "/wiki/Geographic_coordinate_system" ∨
         BeginsWith href "/wiki/Help" ∨
         BeginsWith href "/wiki/ISBN_" ∨
         BeginsWith href "/wiki/ISSN_" ∨
         BeginsWith href "/wiki/Main_Page" ∨
         BeginsWith href "/wiki/Special" ∨
         BeginsWith href "/wiki/Wayback_Machine" ∨
         BeginsWith href "/wiki/Wikipedia:") := by
  simp only [← hasPrefix_iff]
  simp [isWikiArticle, containsExcludedPrefix, prefixesToExclude]
  tauto

/-! ## C9, C10: keys from titles -/

/-- C9: `buildNodeFromArticle t s` has the key `https://en.m.wikipedia.org/wiki/` followed
by `t` with every space replaced by an underscore and every other character unchanged, the
side `s` and no predecessor; the key built from a title contains no space. -/
theorem buildNodeFromArticle_spec (t : String) (s : Int) :
    buildNodeFromArticle t s
        = node.mk none s ("https://en.m.wikipedia.org/wiki/" ++ spacesToUnderscores t) ∧
      (buildNodeFromArticle t s).url
        = "https://en.m.wikipedia.org/wiki/" ++ spacesToUnderscores t ∧
      (buildNodeFromArticle t s).pathId = s ∧
      (buildNodeFromArticle t s).parent = none ∧
      ' ' ∉ (buildNodeFromArticle t s).url.data := by
  have hsp := space_not_mem_spacesToUnderscores t
  refine ⟨?_, ?_, rfl, rfl, ?_⟩
  · simp [buildNodeFromArticle, replaceAll_space]
  · simp [buildNodeFromArticle, node.url, replaceAll_space]
  · simp only [buildNodeFromArticle, node.url, replaceAll_space, String.data_append,
      List.mem_append, not_or]
    exact ⟨by decide, hsp⟩

/-- C10: `translateStringToWikiUrl t` is `https://en.wikipedia.org/wiki/` followed by `t`
with every space replaced by an underscore and every other character unchanged; for
`Peter Jenkins` it is `https://en.wikipedia.org/wiki/Peter_Jenkins`. -/
theorem translateStringToWikiUrl_spec (t : String) :
    translateStringToWikiUrl t = "https://en.wikipedia.org/wiki/" ++ spacesToUnderscores t ∧
      translateStringToWikiUrl "Peter Jenkins"
        = "https://en.wikipedia.org/wiki/Peter_Jenkins" := by
  refine ⟨?_, by decide⟩
  simp [translateStringToWikiUrl, replaceAll_space]

/-! ## C4: path selection -/

theorem countScan_le_length (sub : List Char) :
    ∀ (l : List Char) (k : Nat), countScan sub k l ≤ l.length := by
  intro l
  induction l with
  | nil => intro k; simp [countScan]
  | cons c cs ih =>
      intro k
      cases k with
      | succ k =>
          have := ih k
          simp only [countScan, List.length_cons]
          omega
      | zero =>
          simp only [countScan, List.length_cons]
          split
          · have := ih (sub.length - 1)
            omega
          · have := ih 0
            omega

theorem length_le_len (s : String) : s.data.length ≤ len s := by
  unfold len
  induction s.data with
  | nil => simp
  | cons c cs ih =>
      have := Char.utf8Size_pos c
      simp only [List.length_cons, List.map_cons, List.sum_cons]
      omega

theorem hops_le_len (s : String) : hops s ≤ len s :=
  le_trans (countScan_le_length _ _ _) (length_le_len s)

/-- The loop of `filterShortestPath` keeps: the state holds the hop count and the index of
the first path with the fewest hops among those seen so far. -/
theorem filterShortestPath_loop (rest : List String) :
    ∀ (seen : List String) (st : Nat × Nat),
      (seen[st.2]?.map hops = some st.1 ∧ (∀ q ∈ seen, st.1 ≤ hops q) ∧
        (∀ (j : Nat) (q : String), j < st.2 → seen[j]? = some q → st.1 < hops q)) →
      ∃ st2 : Nat × Nat,
        (rest.enumFrom seen.length).foldl
          (fun (st : Nat × Nat) (ip : Nat × String) =>
            if Count ip.2 "->" < st.1 then (Count ip.2 "->", ip.1) else st) st = st2 ∧
        (seen ++ rest)[st2.2]?.map hops = some st2.1 ∧
        (∀ q ∈ seen ++ rest, st2.1 ≤ hops q) ∧
        (∀ (j : Nat) (q : String), j < st2.2 → (seen ++ rest)[j]? = some q → st2.1 < hops q) := by
  induction rest with
  | nil =>
      intro seen st h
      exact ⟨st, rfl, by simpa using h⟩
  | cons p rest ih =>
      intro seen st ⟨h1, h2, h3⟩
      have hlt : st.2 < seen.length := by
        by_contra hge
        rw [List.getElem?_eq_none (by omega)] at h1
        simp at h1
      simp only [List.enumFrom_cons, List.foldl_cons]
      have key : ∀ st1 : Nat × Nat,
          ((seen ++ [p])[st1.2]?.map hops = some st1.1 ∧ (∀ q ∈ seen ++ [p], st1.1 ≤ hops q) ∧
            (∀ (j : Nat) (q : String), j < st1.2 → (seen ++ [p])[j]? = some q → st1.1 < hops q)) →
          ∃ st2 : Nat × Nat,
            (rest.enumFrom (seen.length + 1)).foldl
              (fun (st : Nat × Nat) (ip : Nat × String) =>
                if Count ip.2 "->" < st.1 then (Count ip.2 "->", ip.1) else st) st1 = st2 ∧
            (seen ++ p :: rest)[st2.2]?.map hops = some st2.1 ∧
            (∀ q ∈ seen ++ p :: rest, st2.1 ≤ hops q) ∧
            (∀ (j : Nat) (q : String), j < st2.2 → (seen ++ p :: rest)[j]? = some q → st2.1 < hops q) := by
        intro st1 hst1
        have := ih (seen ++ [p]) st1 hst1
        simpa using this
      by_cases hc : Count p "->" < st.1
      · rw [if_pos hc]
        apply key
        refine ⟨by simp [hops], ?_, ?_⟩
        · intro q hq
          rcases List.mem_append.1 hq with hq | hq
          · exact le_trans (le_of_lt hc) (h2 q hq)
          · simp only [List.mem_singleton] at hq
            subst hq
            exact le_refl _
        · intro j q hj hq
          simp only at hj
          rw [List.getElem?_append_left hj] at hq
          have hmem : q ∈ seen := List.getElem?_mem hq
          exact lt_of_lt_of_le hc (h2 q hmem)
      · rw [if_neg hc]
        apply key
        refine ⟨?_, ?_, ?_⟩
        · rw [List.getElem?_append_left hlt]
          exact h1
        · intro q hq
          rcases List.mem_append.1 hq with hq | hq
          · exact h2 q hq
          · simp only [List.mem_singleton] at hq
            subst hq
            exact not_lt.1 hc
        · intro j q hj hq
          rw [List.getElem?_append_left (by omega)] at hq
          exact h3 j q hj hq

/-- On a non-empty list `filterShortestPath` returns the first path with the fewest hops. -/
theorem filterShortestPath_cons (p0 : String) (tl : List String) :
    ∃ (i : Nat) (p : String), (p0 :: tl)[i]? = some p ∧ filterShortestPath (p0 :: tl) = some p ∧
      (∀ q ∈ p0 :: tl, hops p ≤ hops q) ∧
      (∀ (j : Nat) (q : String), j < i → (p0 :: tl)[j]? = some q → hops p < hops q) := by
  have hfirst : (if Count p0 "->" < len p0 then (Count p0 "->", 0) else (len p0, 0))
      = (hops p0, 0) := by
    by_cases hc : Count p0 "->" < len p0
    · rw [if_pos hc]; rfl
    · rw [if_neg hc]
      have := hops_le_len p0
      unfold hops at this ⊢
      have : len p0 = Count p0 "->" := by omega
      rw [this]
  obtain ⟨st2, hfold, h1, h2, h3⟩ := filterShortestPath_loop tl [p0] (hops p0, 0)
    ⟨by simp, by simp, by simp⟩
  have hres : filterShortestPath (p0 :: tl) = (p0 :: tl)[st2.2]? := by
    simp only [filterShortestPath, List.enum, List.enumFrom_cons, List.foldl_cons, hfirst]
    simp only [List.length_singleton, Nat.zero_add] at hfold
    rw [hfold]
  simp only [List.singleton_append] at h1 h2 h3
  cases hget : (p0 :: tl)[st2.2]? with
  | none => rw [hget] at h1; simp at h1
  | some p =>
      rw [hget] at h1
      simp only [Option.map_some', Option.some.injEq] at h1
      refine ⟨st2.2, p, hget, by rw [hres, hget], ?_, ?_⟩
      · intro q hq
        rw [h1]
        exact h2 q hq
      · intro j q hj hq
        rw [h1]
        exact h3 j q hj hq

/-- C4: on a non-empty list `filterShortestPath` returns the element with the fewest hops
(occurrences of `->`), the first such element of the list when several share the minimum;
of two paths with 3 and 5 hops it returns the 3-hop one, in either order. -/
theorem filterShortestPath_fewest_hops_first (paths : List String) (hne : paths ≠ []) :
    (∃ (i : Nat) (p : String), paths[i]? = some p ∧ filterShortestPath paths = some p ∧
      (∀ q ∈ paths, hops p ≤ hops q) ∧
      (∀ (j : Nat) (q : String), j < i → paths[j]? = some q → hops p < hops q)) ∧
    (∀ p q : String, hops p = 3 → hops q = 5 →
      filterShortestPath [p, q] = some p ∧ filterShortestPath [q, p] = some p) := by
  constructor
  · cases paths with
    | nil => exact absurd rfl hne
    | cons p0 tl => exact filterShortestPath_cons p0 tl
  · intro p q hp hq
    constructor
    · obtain ⟨i, r, hi, hr, hmin, _⟩ := filterShortestPath_cons p [q]
      rw [hr]
      have hpr := hmin p (by simp)
      match i, hi with
      | 0, hi => simpa [eq_comm] using hi
      | 1, hi =>
          simp at hi
          subst hi
          omega
      | (k + 2), hi => simp at hi
    · obtain ⟨i, r, hi, hr, hmin, _⟩ := filterShortestPath_cons q [p]
      rw [hr]
      have hpr := hmin p (by simp)
      match i, hi with
      | 0, hi =>
          simp at hi
          subst hi
          omega
      | 1, hi => simpa [eq_comm] using hi
      | (k + 2), hi => simp at hi

/-- Witness for C4: a list of four paths whose second element is the first with the fewest
hops. -/
theorem filterShortestPath_fewest_hops_first_witness :
    (["S -> A -> B -> D", "S -> D", "S -> X -> D", "D -> S"] : List String) ≠ [] ∧
    ((∃ (i : Nat) (p : String), (["S -> A -> B -> D", "S -> D", "S -> X -> D", "D -> S"] : List String)[i]? = some p ∧
      filterShortestPath ["S -> A -> B -> D", "S -> D", "S -> X -> D", "D -> S"] = some p ∧
      (∀ q ∈ (["S -> A -> B -> D", "S -> D", "S -> X -> D", "D -> S"] : List String),
        hops p ≤ hops q) ∧
      (∀ (j : Nat) (q : String), j < i →
        (["S -> A -> B -> D", "S -> D", "S -> X -> D", "D -> S"] : List String)[j]? = some q →
        hops p < hops q)) ∧
    (∀ p q : String, hops p = 3 → hops q = 5 →
      filterShortestPath [p, q] = some p ∧ filterShortestPath [q, p] = some p)) :=
  ⟨by decide, filterShortestPath_fewest_hops_first _ (by decide)⟩

/-! ## C1, C2, C3: the rendered path -/

/-- C1 (defect in the code): the rear side pops `X`, which the front side has registered;
`processNode` hands the popped node to `getPath` as its first argument whatever the side,
so the emitted path lists the destination root first and the origin root last. -/
theorem processNode_rear_meeting_reversed :
    processNode [("https://en.m.wikipedia.org/wiki/X", frontX)] [rearX] 0 []
        PathIdFromTheRear []
      = ([("https://en.m.wikipedia.org/wiki/X", frontX)], [], 0, [],
          ["https://en.m.wikipedia.org/wiki/D -> https://en.m.wikipedia.org/wiki/X -> https://en.m.wikipedia.org/wiki/S"]) ∧
    rootS.url = "https://en.m.wikipedia.org/wiki/S" ∧
    rootD.url = "https://en.m.wikipedia.org/wiki/D" := by
  decide

set_option maxRecDepth 100000 in
/-- C2 (defect in the code): `S` and `D` are distinct, neither links to the other and both
link to `X`; the search returns found = true with the keys in the order destination, `X`,
start, not start, `X`, destination. -/
theorem GetShortestPath_common_neighbour_reversed :
    keyOf "S" ≠ keyOf "D" ∧
    keyOf "D" ∉ neighbours webCommon (keyOf "S") ∧
    keyOf "S" ∉ neighbours webCommon (keyOf "D") ∧
    "https://en.m.wikipedia.org/wiki/X" ∈ neighbours webCommon (keyOf "S") ∧
    "https://en.m.wikipedia.org/wiki/X" ∈ neighbours webCommon (keyOf "D") ∧
    GetShortestPath webCommon id 3 "S" "D"
      = Outcome.returned
          ("https://en.m.wikipedia.org/wiki/D -> https://en.m.wikipedia.org/wiki/X -> https://en.m.wikipedia.org/wiki/S",
            true) ∧
    GetShortestPath webCommon id 3 "S" "D"
      ≠ Outcome.returned
          (" -> ".intercalate [keyOf "S", "https://en.m.wikipedia.org/wiki/X", keyOf "D"], true) := by
  decide

/-- C3 (defect in the code): `strings.TrimRight` takes a set of characters, not a suffix,
so after the delimiter it also removes a trailing hyphen of the key of the first node:
the rendered path differs from the keys joined by the delimiter. -/
theorem getPath_cuts_trailing_hyphen :
    getPath frontDash rearDash
      = "https://en.m.wikipedia.org/wiki/S -> https://en.m.wikipedia.org/wiki/C -> https://en.m.wikipedia.org/wiki/D" ∧
    joinedPath frontDash rearDash
      = "https://en.m.wikipedia.org/wiki/S -> https://en.m.wikipedia.org/wiki/C- -> https://en.m.wikipedia.org/wiki/D" ∧
    getPath frontDash rearDash ≠ joinedPath frontDash rearDash := by
  decide

/-! ## C7: a failing lookup -/

/-- C7 (defect in the code): when `http.Get` fails the task delivers an empty batch and the
search goes on, but when the body fails to load `log.Fatal` ends the process: the task
delivers nothing and the search is aborted. -/
theorem passChildNodesToChan_parse_failure_exits :
    passChildNodesToChan (fun _ => PageFetch.getError) rootS PathIdFromTheFront = some [] ∧
    GetShortestPath (fun _ => PageFetch.getError) id 2 "S" "D"
      = Outcome.returned ("No Path Found.", false) ∧
    getChildWikiLinksForWikiPage webBroken rootS.url = LinksResult.fatal ∧
    passChildNodesToChan webBroken rootS PathIdFromTheFront = none ∧
    GetShortestPath webBroken id 2 "S" "D" = Outcome.fatalExit := by
  decide

/-! ## C5: which path a successful search returns -/

set_option maxRecDepth 100000 in
/-- C5 (defect in the code): in `webDetour` the keys of `S`, `A`, `B`, `D` form a chain of
links from the start key to the destination key with 3 hops, and the search, which by its
doc comment returns the shortest path, returns a path with 4 hops, through `Y`, a page
both `C` (linked from `S`) and `E` (linked from `D`) link to; so it does when the lookup
tasks of a round finish in the reverse of their launch order. -/
theorem GetShortestPath_detour_not_shortest :
    GetShortestPath webDetour id 3 "S" "D"
      = Outcome.returned
          ("https://en.m.wikipedia.org/wiki/S -> https://en.m.wikipedia.org/wiki/C -> https://en.m.wikipedia.org/wiki/Y -> https://en.m.wikipedia.org/wiki/E -> https://en.m.wikipedia.org/wiki/D",
            true) ∧
    hops "https://en.m.wikipedia.org/wiki/S -> https://en.m.wikipedia.org/wiki/C -> https://en.m.wikipedia.org/wiki/Y -> https://en.m.wikipedia.org/wiki/E -> https://en.m.wikipedia.org/wiki/D"
      = 4 ∧
    LinkedChain webDetour
      [keyOf "S", "https://en.m.wikipedia.org/wiki/A", "https://en.m.wikipedia.org/wiki/B",
        keyOf "D"] ∧
    hops (" -> ".intercalate
      [keyOf "S", "https://en.m.wikipedia.org/wiki/A", "https://en.m.wikipedia.org/wiki/B",
        keyOf "D"]) = 3 ∧
    GetShortestPath webDetour List.reverse 3 "S" "D"
      = Outcome.returned
          ("https://en.m.wikipedia.org/wiki/D -> https://en.m.wikipedia.org/wiki/E -> https://en.m.wikipedia.org/wiki/Y -> https://en.m.wikipedia.org/wiki/C -> https://en.m.wikipedia.org/wiki/S",
            true) ∧
    hops "https://en.m.wikipedia.org/wiki/D -> https://en.m.wikipedia.org/wiki/E -> https://en.m.wikipedia.org/wiki/Y -> https://en.m.wikipedia.org/wiki/C -> https://en.m.wikipedia.org/wiki/S"
      = 4 := by
  refine ⟨by decide, by decide, ?_, by decide, by decide, by decide⟩
  simp only [LinkedChain, List.chain'_cons, List.chain'_singleton, and_true]
  decide

/-- The outer loop, entered at the start of round `n`, can only return a found path from a
round that `roundStart` describes, as the choice of `filterShortestPath` in it. -/
theorem searchLoop_found (web : Web) (sched : List (node × Int) → List (node × Int))
    (s d p : String) :
    ∀ (fuel n : Nat) (m : List (String × node)) (q1 q2 : List node),
      roundStart web sched s d n = some (m, q1, q2) →
      searchLoop web sched fuel m q1 q2 = Outcome.returned (p, true) →
      ∃ (k : Nat) (m2 : List (String × node)) (r1 r2 : List node),
        k < n + fuel ∧ roundStart web sched s d k = some (m2, r1, r2) ∧
        (runRound m2 r1 r2).paths ≠ [] ∧
        filterShortestPath (runRound m2 r1 r2).paths = some p := by
  intro fuel
  induction fuel with
  | zero =>
      intro n m q1 q2 _ h
      simp [searchLoop] at h
  | succ fuel ih =>
      intro n m q1 q2 hn h
      unfold searchLoop at h
      by_cases hq : 0 < q1.length ∨ 0 < q2.length
      · rw [if_pos hq] at h
        by_cases hp : (runRound m q1 q2).paths.length ≠ 0
        · rw [if_pos hp] at h
          refine ⟨n, m, q1, q2, by omega, hn, ?_, ?_⟩
          · intro he
            exact hp (by rw [he]; rfl)
          · cases hf : filterShortestPath (runRound m q1 q2).paths with
            | none => rw [hf] at h; simp at h
            | some p2 =>
                rw [hf] at h
                simp only [Outcome.returned.injEq, Prod.mk.injEq, and_true] at h
                rw [h]
        · rw [if_neg hp] at h
          cases hc : collectRound web sched (runRound m q1 q2) with
          | returned st =>
              obtain ⟨m3, q3, q4⟩ := st
              rw [hc] at h
              have hnext : roundStart web sched s d (n + 1) = some (m3, q3, q4) := by
                simp only [roundStart, hn, if_pos hq, if_neg hp, hc]
              obtain ⟨k, m2, r1, r2, hk, hr, hne, hsel⟩ := ih (n + 1) m3 q3 q4 hnext h
              exact ⟨k, m2, r1, r2, by omega, hr, hne, hsel⟩
          | fatalExit => rw [hc] at h; simp at h
          | panicked => rw [hc] at h; simp at h
          | deadlocked => rw [hc] at h; simp at h
          | outOfFuel => rw [hc] at h; simp at h
      · rw [if_neg hq] at h
        simp at h

/-- What a search that finds a path returns: the path comes from the first round in which
the two sides met (every earlier round found no meeting); it is one of the meeting paths
of that round, none of them has fewer hops, and those listed before it have more. -/
theorem GetShortestPath_found_fewest_hops_of_round (web : Web)
    (sched : List (node × Int) → List (node × Int)) (fuel : Nat) (s d p : String)
    (h : GetShortestPath web sched fuel s d = Outcome.returned (p, true)) :
    ∃ (n : Nat) (m : List (String × node)) (q1 q2 : List node) (i : Nat),
      n < fuel ∧ roundStart web sched s d n = some (m, q1, q2) ∧
      (runRound m q1 q2).paths[i]? = some p ∧
      (∀ q ∈ (runRound m q1 q2).paths, hops p ≤ hops q) ∧
      (∀ (j : Nat) (q : String), j < i → (runRound m q1 q2).paths[j]? = some q →
        hops p < hops q) := by
  obtain ⟨k, m2, r1, r2, hk, hr, hne, hsel⟩ :=
    searchLoop_found web sched s d p fuel 0 _ _ _ rfl h
  cases hpaths : (runRound m2 r1 r2).paths with
  | nil => exact absurd hpaths hne
  | cons p0 tl =>
      obtain ⟨i, r, hi, hres, hmin, hfirst⟩ := filterShortestPath_cons p0 tl
      rw [hpaths] at hsel
      rw [hsel] at hres
      simp only [Option.some.injEq] at hres
      subst hres
      refine ⟨k, m2, r1, r2, i, by omega, hr, ?_, ?_, ?_⟩
      · rw [hpaths]; exact hi
      · rw [hpaths]; exact hmin
      · rw [hpaths]; exact hfirst

set_option maxRecDepth 100000 in
/-- The search in `webDetour` returns in its third round, with the best meeting path of
that round. -/
theorem GetShortestPath_found_fewest_hops_of_round_witness :
    GetShortestPath webDetour id 3 "S" "D"
      = Outcome.returned
          ("https://en.m.wikipedia.org/wiki/S -> https://en.m.wikipedia.org/wiki/C -> https://en.m.wikipedia.org/wiki/Y -> https://en.m.wikipedia.org/wiki/E -> https://en.m.wikipedia.org/wiki/D",
            true) ∧
    ∃ (n : Nat) (m : List (String × node)) (q1 q2 : List node) (i : Nat),
      n < 3 ∧ roundStart webDetour id "S" "D" n = some (m, q1, q2) ∧
      (runRound m q1 q2).paths[i]?
        = some "https://en.m.wikipedia.org/wiki/S -> https://en.m.wikipedia.org/wiki/C -> https://en.m.wikipedia.org/wiki/Y -> https://en.m.wikipedia.org/wiki/E -> https://en.m.wikipedia.org/wiki/D" ∧
      (∀ q ∈ (runRound m q1 q2).paths,
        hops "https://en.m.wikipedia.org/wiki/S -> https://en.m.wikipedia.org/wiki/C -> https://en.m.wikipedia.org/wiki/Y -> https://en.m.wikipedia.org/wiki/E -> https://en.m.wikipedia.org/wiki/D"
          ≤ hops q) ∧
      (∀ (j : Nat) (q : String), j < i → (runRound m q1 q2).paths[j]? = some q →
        hops "https://en.m.wikipedia.org/wiki/S -> https://en.m.wikipedia.org/wiki/C -> https://en.m.wikipedia.org/wiki/Y -> https://en.m.wikipedia.org/wiki/E -> https://en.m.wikipedia.org/wiki/D"
          < hops q) :=
  ⟨by decide, GetShortestPath_found_fewest_hops_of_round webDetour id 3 "S" "D" _ (by decide)⟩

/-! ## C6: a search in which the two sides cannot meet -/

theorem wrapInt_of_range (x : Int) (hlo : MinInt ≤ x) (hhi : x ≤ MaxInt) : wrapInt x = x := by
  unfold wrapInt
  unfold MinInt at hlo
  unfold MaxInt at hhi
  omega

theorem registry_length_le (Good : Int → String → Prop) (K : List String)
    (hK : ∀ i k, Good i k → k ∈ K) (m : List (String × node)) (hm : RegistryOK Good m) :
    m.length ≤ K.length := by
  have hsub : m.map Prod.fst ⊆ K := by
    intro k hk
    obtain ⟨⟨k2, v⟩, hkv, hk2⟩ := List.mem_map.1 hk
    simp only at hk2
    subst hk2
    exact hK _ _ (hm.1 _ _ hkv).2
  have := (List.subperm_of_subset hm.2 hsub).length_le
  simpa using this

theorem processNode_no_meeting (Good : Int → String → Prop)
    (hdisj : ∀ i j k, Good i k → Good j k → i = j) (K : List String)
    (hK : ∀ i k, Good i k → k ∈ K) (hsize : K.length < 2 ^ 63) (side : Int)
    (m : List (String × node)) (q : List node) (c : Int) (ch : List (node × Int))
    (paths : List String)
    (hm : RegistryOK Good m) (hq : QueueOK Good side q) (hch : ChanOK Good side ch)
    (hc : c = ch.length) (hcm : ch.length ≤ m.length) :
    ∃ m2 q2 c2 ch2, processNode m q c ch side paths = (m2, q2, c2, ch2, paths) ∧
      RegistryOK Good m2 ∧ QueueOK Good side q2 ∧ ChanOK Good side ch2 ∧
      c2 = ch2.length ∧ q2.length = q.length - 1 ∧ (∀ n ∈ q2, n ∈ q) ∧
      (m2.length : Int) + c = m.length + c2 := by
  cases q with
  | nil => exact ⟨m, [], c, ch, rfl, hm, hq, hch, hc, rfl, fun _ h => h, rfl⟩
  | cons n rest =>
      have hn := hq n (List.mem_cons_self _ _)
      have hrest : QueueOK Good side rest := fun x hx => hq x (List.mem_cons_of_mem _ hx)
      cases hl : m.lookup n.url with
      | none =>
          have hreg : RegistryOK Good ((n.url, n) :: m) := by
            constructor
            · intro k v hkv
              rcases List.mem_cons.1 hkv with h | h
              · simp only [Prod.mk.injEq] at h
                obtain ⟨hk, hv⟩ := h
                subst hk hv
                exact ⟨rfl, by rw [hn.1]; exact hn.2⟩
              · exact hm.1 k v h
            · simp only [List.map_cons, List.nodup_cons]
              refine ⟨?_, hm.2⟩
              intro hmem
              obtain ⟨⟨k, v⟩, hkv, hk⟩ := List.mem_map.1 hmem
              simp only at hk
              rw [List.lookup_eq_none_iff] at hl
              have hne := hl (k, v) hkv
              simp [hk] at hne
          have hlen := registry_length_le Good K hK _ hreg
          simp only [List.length_cons] at hlen
          have hwrap : wrapInt (c + 1) = c + 1 := by
            apply wrapInt_of_range
            · unfold MinInt; omega
            · unfold MaxInt; omega
          refine ⟨(n.url, n) :: m, rest, c + 1, ch ++ [(n, side)], ?_, hreg, hrest, ?_, ?_, ?_,
            fun x hx => List.mem_cons_of_mem _ hx, ?_⟩
          · simp [processNode, hl, hwrap]
          · intro t ht
            rcases List.mem_append.1 ht with h | h
            · exact hch t h
            · simp only [List.mem_singleton] at h
              subst h
              exact ⟨rfl, hn.2⟩
          · simp [hc]
          · simp
          · simp only [List.length_cons]
            omega
      | some val =>
          have hmem : (n.url, val) ∈ m := by
            have := List.lookup_eq_some_iff.1 hl
            obtain ⟨l1, l2, h1, _⟩ := this
            rw [h1]
            simp
          have hval := hm.1 _ _ hmem
          have hside : val.pathId = side := hdisj _ _ _ hval.2 hn.2
          refine ⟨m, rest, c, ch, ?_, hm, hrest, hch, hc, by simp,
            fun x hx => List.mem_cons_of_mem _ hx, rfl⟩
          simp [processNode, hl, hside]

theorem Round.step_no_meeting (Good : Int → String → Prop)
    (hdisj : ∀ i j k, Good i k → Good j k → i = j) (K : List String)
    (hK : ∀ i k, Good i k → k ∈ K) (hsize : K.length < 2 ^ 63) (base : Nat) (r : Round)
    (h : RoundOK Good base r) :
    RoundOK Good base r.step ∧ r.step.q1.length = r.q1.length - 1 ∧
      r.step.q2.length = r.q2.length - 1 := by
  have hsz := h.size
  have hk1 := h.count1
  have hk2 := h.count2
  obtain ⟨m1, q1, c1, ch1, e1, hm1, hq1, hch1, hc1, hl1, _, hs1⟩ :=
    processNode_no_meeting Good hdisj K hK hsize PathIdFromTheFront r.urlToNodeMap r.q1
      r.chan1ThreadCount r.chan1 r.paths h.reg h.front h.tasks1 h.count1 (by omega)
  obtain ⟨m2, q2, c2, ch2, e2, hm2, hq2, hch2, hc2, hl2, _, hs2⟩ :=
    processNode_no_meeting Good hdisj K hK hsize PathIdFromTheRear m1 r.q2
      r.chan2ThreadCount r.chan2 r.paths hm1 h.rear h.tasks2 h.count2 (by omega)
  have hstep : r.step = ⟨m2, q1, q2, c1, c2, ch1, ch2, r.paths⟩ := by
    simp only [Round.step, e1, e2]
  rw [hstep]
  refine ⟨⟨hm2, hq1, hq2, hch1, hch2, hc1, hc2, h.quiet, ?_⟩, hl1, hl2⟩
  have := h.size
  simp only
  omega

theorem drainQueues_no_meeting (Good : Int → String → Prop)
    (hdisj : ∀ i j k, Good i k → Good j k → i = j) (K : List String)
    (hK : ∀ i k, Good i k → k ∈ K) (hsize : K.length < 2 ^ 63) (base : Nat) :
    ∀ (n : Nat) (r : Round), RoundOK Good base r → r.q1.length + r.q2.length ≤ n →
      RoundOK Good base (drainQueues n r) ∧ (drainQueues n r).q1 = [] ∧
        (drainQueues n r).q2 = [] := by
  intro n
  induction n with
  | zero =>
      intro r h hle
      refine ⟨h, ?_, ?_⟩
      · exact List.length_eq_zero.1 (by simp only [drainQueues]; omega)
      · exact List.length_eq_zero.1 (by simp only [drainQueues]; omega)
  | succ n ih =>
      intro r h hle
      by_cases hq : 0 < r.q1.length ∨ 0 < r.q2.length
      · obtain ⟨hok, h1, h2⟩ := Round.step_no_meeting Good hdisj K hK hsize base r h
        have := ih r.step hok (by omega)
        simpa only [drainQueues, if_pos hq] using this
      · simp only [drainQueues, if_neg hq]
        refine ⟨h, ?_, ?_⟩
        · exact List.length_eq_zero.1 (by omega)
        · exact List.length_eq_zero.1 (by omega)

theorem runRound_no_meeting (Good : Int → String → Prop)
    (hdisj : ∀ i j k, Good i k → Good j k → i = j) (K : List String)
    (hK : ∀ i k, Good i k → k ∈ K) (hsize : K.length < 2 ^ 63)
    (m : List (String × node)) (q1 q2 : List node)
    (hm : RegistryOK Good m) (h1 : QueueOK Good PathIdFromTheFront q1)
    (h2 : QueueOK Good PathIdFromTheRear q2) :
    RoundOK Good m.length (runRound m q1 q2) ∧ (runRound m q1 q2).q1 = [] ∧
      (runRound m q1 q2).q2 = [] := by
  apply drainQueues_no_meeting Good hdisj K hK hsize m.length
  · exact ⟨hm, h1, h2, fun _ h => absurd h (List.not_mem_nil _),
      fun _ h => absurd h (List.not_mem_nil _), rfl, rfl, rfl, by simp⟩
  · exact le_refl _

theorem passChildNodesToChan_of_loaded (web : Web) (a : node) (i : Int)
    (h : web a.url ≠ PageFetch.parseError) :
    passChildNodesToChan web a i
      = some ((neighbours web a.url).map (fun link => node.mk (some a) i link)) := by
  unfold passChildNodesToChan neighbours getChildWikiLinksForWikiPage
  cases hw : web a.url with
  | getError => simp
  | parseError => exact absurd hw h
  | document anchors => simp

theorem receiveBatches_all (batches : List (List node)) :
    ∀ acc : List node,
      receiveBatches batches.length (batches.map some) acc
        = Outcome.returned (acc ++ batches.flatten) := by
  induction batches with
  | nil => intro acc; simp [receiveBatches]
  | cons b bs ih =>
      intro acc
      simp [receiveBatches, ih]

theorem addThreadToNextQueue_all (batches : List (List node)) (acc : List node) :
    addThreadToNextQueue batches.length (batches.map some) acc
      = Outcome.returned (acc ++ batches.flatten) := by
  unfold addThreadToNextQueue
  rw [Int.toNat_ofNat]
  exact receiveBatches_all batches acc

theorem fanIn_no_meeting (web : Web) (sched : List (node × Int) → List (node × Int))
    (Good : Int → String → Prop) (hsched : ∀ l, (sched l).Perm l)
    (hclosed : ∀ i k x, Good i k → x ∈ neighbours web k → Good i x)
    (hfetch : ∀ i k, Good i k → web k ≠ PageFetch.parseError)
    (side : Int) (ch : List (node × Int)) (c : Int)
    (hch : ChanOK Good side ch) (hc : c = ch.length) :
    ∃ q, addThreadToNextQueue c (deliveries web sched ch) [] = Outcome.returned q ∧
      QueueOK Good side q ∧ (c = 0 → q = []) := by
  have hmem : ∀ t ∈ sched ch, t ∈ ch := fun t ht => (hsched ch).mem_iff.1 ht
  have hdel : deliveries web sched ch
      = ((sched ch).map (fun t =>
          (neighbours web t.1.url).map (fun link => node.mk (some t.1) t.2 link))).map some := by
    unfold deliveries
    rw [List.map_map]
    apply List.map_congr_left
    intro t ht
    exact passChildNodesToChan_of_loaded web t.1 t.2 (hfetch side _ (hch t (hmem t ht)).2)
  have hlen : c = (((sched ch).map (fun t =>
      (neighbours web t.1.url).map (fun link => node.mk (some t.1) t.2 link))).length : Int) := by
    rw [List.length_map, (hsched ch).length_eq, hc]
  refine ⟨_, by rw [hdel, hlen]; exact addThreadToNextQueue_all _ [], ?_, ?_⟩
  · intro n hn
    simp only [List.nil_append, List.mem_flatten, List.mem_map] at hn
    obtain ⟨batch, ⟨t, ht, hb⟩, hnb⟩ := hn
    subst hb
    obtain ⟨link, hlink, hnl⟩ := List.mem_map.1 hnb
    subst hnl
    have ht2 := hch t (hmem t ht)
    exact ⟨ht2.1, hclosed side _ _ ht2.2 hlink⟩
  · intro h0
    have hnil : ch = [] := List.length_eq_zero.1 (by omega)
    have : sched ch = [] := by
      rw [hnil]
      exact List.Perm.eq_nil (hsched [])
    simp [this]

theorem collectRound_no_meeting (web : Web) (sched : List (node × Int) → List (node × Int))
    (Good : Int → String → Prop) (hsched : ∀ l, (sched l).Perm l)
    (hclosed : ∀ i k x, Good i k → x ∈ neighbours web k → Good i x)
    (hfetch : ∀ i k, Good i k → web k ≠ PageFetch.parseError)
    (base : Nat) (r : Round) (h : RoundOK Good base r) :
    ∃ q1 q2, collectRound web sched r = Outcome.returned (r.urlToNodeMap, q1, q2) ∧
      QueueOK Good PathIdFromTheFront q1 ∧ QueueOK Good PathIdFromTheRear q2 ∧
      (r.chan1ThreadCount = 0 → q1 = []) ∧ (r.chan2ThreadCount = 0 → q2 = []) := by
  obtain ⟨q1, e1, hq1, hz1⟩ := fanIn_no_meeting web sched Good hsched hclosed hfetch
    PathIdFromTheFront r.chan1 r.chan1ThreadCount h.tasks1 h.count1
  obtain ⟨q2, e2, hq2, hz2⟩ := fanIn_no_meeting web sched Good hsched hclosed hfetch
    PathIdFromTheRear r.chan2 r.chan2ThreadCount h.tasks2 h.count2
  exact ⟨q1, q2, by simp only [collectRound, e1, e2], hq1, hq2, hz1, hz2⟩

theorem searchLoop_no_meeting (web : Web) (sched : List (node × Int) → List (node × Int))
    (Good : Int → String → Prop) (K : List String) (hsize : K.length < 2 ^ 63)
    (hsched : ∀ l, (sched l).Perm l)
    (hdisj : ∀ i j k, Good i k → Good j k → i = j)
    (hclosed : ∀ i k x, Good i k → x ∈ neighbours web k → Good i x)
    (hfetch : ∀ i k, Good i k → web k ≠ PageFetch.parseError)
    (hK : ∀ i k, Good i k → k ∈ K) :
    ∀ (gap : Nat) (m : List (String × node)) (q1 q2 : List node),
      RegistryOK Good m → QueueOK Good PathIdFromTheFront q1 →
      QueueOK Good PathIdFromTheRear q2 → K.length ≤ m.length + gap →
      ∀ fuel, gap + 2 ≤ fuel →
        searchLoop web sched fuel m q1 q2 = Outcome.returned ("No Path Found.", false) := by
  intro gap
  induction gap with
  | zero =>
      intro m q1 q2 hm h1 h2 hgap fuel hfuel
      obtain ⟨f, rfl⟩ : ∃ f, fuel = f + 1 := ⟨fuel - 1, by omega⟩
      unfold searchLoop
      by_cases hq : 0 < q1.length ∨ 0 < q2.length
      · obtain ⟨hok, _, _⟩ := runRound_no_meeting Good hdisj K hK hsize m q1 q2 hm h1 h2
        obtain ⟨n1, n2, hc, hn1, hn2, hz1, hz2⟩ :=
          collectRound_no_meeting web sched Good hsched hclosed hfetch _ _ hok
        have hsz := hok.size
        have hk1 := hok.count1
        have hk2 := hok.count2
        have hle := registry_length_le Good K hK _ hok.reg
        have hc1 : (runRound m q1 q2).chan1ThreadCount = 0 := by omega
        have hc2 : (runRound m q1 q2).chan2ThreadCount = 0 := by omega
        rw [if_pos hq, if_neg (by rw [hok.quiet]; simp), hc, hz1 hc1, hz2 hc2]
        obtain ⟨g, rfl⟩ : ∃ g, f = g + 1 := ⟨f - 1, by omega⟩
        simp [searchLoop]
      · rw [if_neg hq]
  | succ gap ih =>
      intro m q1 q2 hm h1 h2 hgap fuel hfuel
      obtain ⟨f, rfl⟩ : ∃ f, fuel = f + 1 := ⟨fuel - 1, by omega⟩
      unfold searchLoop
      by_cases hq : 0 < q1.length ∨ 0 < q2.length
      · obtain ⟨hok, _, _⟩ := runRound_no_meeting Good hdisj K hK hsize m q1 q2 hm h1 h2
        obtain ⟨n1, n2, hc, hn1, hn2, hz1, hz2⟩ :=
          collectRound_no_meeting web sched Good hsched hclosed hfetch _ _ hok
        have hsz := hok.size
        have hk1 := hok.count1
        have hk2 := hok.count2
        rw [if_pos hq, if_neg (by rw [hok.quiet]; simp), hc]
        by_cases hzero : (runRound m q1 q2).chan1ThreadCount = 0 ∧
            (runRound m q1 q2).chan2ThreadCount = 0
        · rw [hz1 hzero.1, hz2 hzero.2]
          obtain ⟨g, rfl⟩ : ∃ g, f = g + 1 := ⟨f - 1, by omega⟩
          simp [searchLoop]
        · exact ih _ n1 n2 hok.reg hn1 hn2 (by omega) f (by omega)
      · rw [if_neg hq]

theorem reach_mem_of_closed (web : Web) (K : List String)
    (hclosed : ∀ k ∈ K, ∀ x ∈ neighbours web k, x ∈ K) (a : String) (ha : a ∈ K) :
    ∀ k, Reach web a k → k ∈ K := by
  intro k h
  induction h with
  | refl => exact ha
  | tail _ hbc ih => exact hclosed _ ih _ hbc

/-- When the body of every page loads: over a finite set `K` of keys, closed under links,
in which no key is reached from both the start key and the destination key,
`GetShortestPath` terminates, within `K.length + 2` rounds, and returns the sentinel
`("No Path Found.", false)`, in whatever order the lookup tasks of a round finish.  The
registry never holds more than `K.length` keys, so the counts stay below `2 ^ 63`. -/
theorem GetShortestPath_no_meeting_sentinel (web : Web)
    (sched : List (node × Int) → List (node × Int))
    (startArticle destinationArticle : String) (K : List String) (fuel : Nat)
    (hsched : ∀ l, (sched l).Perm l)
    (hstart : keyOf startArticle ∈ K) (hdest : keyOf destinationArticle ∈ K)
    (hclosed : ∀ k ∈ K, ∀ x ∈ neighbours web k, x ∈ K)
    (hload : ∀ k ∈ K, web k ≠ PageFetch.parseError)
    (hapart : ∀ k, ¬ (Reach web (keyOf startArticle) k ∧
      Reach web (keyOf destinationArticle) k))
    (hsize : K.length < 2 ^ 63) (hfuel : K.length + 2 ≤ fuel) :
    GetShortestPath web sched fuel startArticle destinationArticle
      = Outcome.returned ("No Path Found.", false) := by
  let Good : Int → String → Prop := fun i k =>
    (i = PathIdFromTheFront ∧ Reach web (keyOf startArticle) k) ∨
    (i = PathIdFromTheRear ∧ Reach web (keyOf destinationArticle) k)
  have hK : ∀ i k, Good i k → k ∈ K := by
    intro i k h
    rcases h with ⟨_, h⟩ | ⟨_, h⟩
    · exact reach_mem_of_closed web K hclosed _ hstart k h
    · exact reach_mem_of_closed web K hclosed _ hdest k h
  have hdisj : ∀ i j k, Good i k → Good j k → i = j := by
    intro i j k hi hj
    rcases hi with ⟨ei, hi⟩ | ⟨ei, hi⟩ <;> rcases hj with ⟨ej, hj⟩ | ⟨ej, hj⟩
    · rw [ei, ej]
    · exact absurd ⟨hi, hj⟩ (hapart k)
    · exact absurd ⟨hj, hi⟩ (hapart k)
    · rw [ei, ej]
  have hcl : ∀ i k x, Good i k → x ∈ neighbours web k → Good i x := by
    intro i k x h hx
    rcases h with ⟨e, h⟩ | ⟨e, h⟩
    · exact Or.inl ⟨e, Relation.ReflTransGen.tail h hx⟩
    · exact Or.inr ⟨e, Relation.ReflTransGen.tail h hx⟩
  have hfetch : ∀ i k, Good i k → web k ≠ PageFetch.parseError :=
    fun i k h => hload k (hK i k h)
  unfold GetShortestPath
  apply searchLoop_no_meeting web sched Good K hsize hsched hdisj hcl hfetch hK K.length
  · exact ⟨fun _ _ h => absurd h (List.not_mem_nil _), List.nodup_nil⟩
  · intro n hn
    simp only [List.mem_singleton] at hn
    subst hn
    exact ⟨rfl, Or.inl ⟨rfl, Relation.ReflTransGen.refl⟩⟩
  · intro n hn
    simp only [List.mem_singleton] at hn
    subst hn
    exact ⟨rfl, Or.inr ⟨rfl, Relation.ReflTransGen.refl⟩⟩
  · simp
  · exact hfuel

/-- The search in `webApart`, whose four keys fall into two parts without a link between
them, with the tasks finishing in launch order. -/
theorem GetShortestPath_no_meeting_sentinel_witness :
    (∀ l : List (node × Int), (id l).Perm l) ∧
    keyOf "S" ∈ keysApart ∧ keyOf "D" ∈ keysApart ∧
    (∀ k ∈ keysApart, ∀ x ∈ neighbours webApart k, x ∈ keysApart) ∧
    (∀ k ∈ keysApart, webApart k ≠ PageFetch.parseError) ∧
    (∀ k, ¬ (Reach webApart (keyOf "S") k ∧ Reach webApart (keyOf "D") k)) ∧
    keysApart.length < 2 ^ 63 ∧ keysApart.length + 2 ≤ 6 ∧
    GetShortestPath webApart id 6 "S" "D" = Outcome.returned ("No Path Found.", false) := by
  have hsched : ∀ l : List (node × Int), (id l).Perm l := fun l => List.Perm.refl l
  have hclosed : ∀ k ∈ keysApart, ∀ x ∈ neighbours webApart k, x ∈ keysApart := by decide
  have hload : ∀ k ∈ keysApart, webApart k ≠ PageFetch.parseError := by
    intro k hk
    simp only [keysApart, List.mem_cons, List.mem_singleton, List.not_mem_nil, or_false] at hk
    rcases hk with rfl | rfl | rfl | rfl <;> simp [webApart]
  have hS : ∀ k, Reach webApart (keyOf "S") k →
      k ∈ ["https://en.m.wikipedia.org/wiki/S", "https://en.m.wikipedia.org/wiki/A"] :=
    reach_mem_of_closed webApart _ (by decide) _ (by decide)
  have hD : ∀ k, Reach webApart (keyOf "D") k →
      k ∈ ["https://en.m.wikipedia.org/wiki/D", "https://en.m.wikipedia.org/wiki/B"] :=
    reach_mem_of_closed webApart _ (by decide) _ (by decide)
  have hapart : ∀ k, ¬ (Reach webApart (keyOf "S") k ∧ Reach webApart (keyOf "D") k) := by
    rintro k ⟨h1, h2⟩
    have a := hS k h1
    have b := hD k h2
    simp only [List.mem_cons, List.mem_singleton, List.not_mem_nil, or_false] at a b
    rcases a with rfl | rfl <;> revert b <;> decide
  exact ⟨hsched, by decide, by decide, hclosed, hload, hapart, by decide, by decide,
    GetShortestPath_no_meeting_sentinel webApart id "S" "D" keysApart 6 hsched (by decide)
      (by decide) hclosed hload hapart (by decide) (by decide)⟩

/-- C6 (defect in the code): in `webBroken` no page yields a link, so over the finite set
of the two root keys, which is closed under links, no key is reached from both the start
key and the destination key.  The search does not return the sentinel: the body of a page
fails to load, `log.Fatal` ends the process in the first round, in whatever order the
lookup tasks finish. -/
theorem GetShortestPath_no_meeting_fatal_exit :
    keyOf "S" ∈ [keyOf "S", keyOf "D"] ∧ keyOf "D" ∈ [keyOf "S", keyOf "D"] ∧
    (∀ k ∈ [keyOf "S", keyOf "D"], ∀ x ∈ neighbours webBroken k, x ∈ [keyOf "S", keyOf "D"]) ∧
    (∀ k, ¬ (Reach webBroken (keyOf "S") k ∧ Reach webBroken (keyOf "D") k)) ∧
    (∀ (sched : List (node × Int) → List (node × Int)) (fuel : Nat),
      (∀ l, (sched l).Perm l) → 0 < fuel →
      GetShortestPath webBroken sched fuel "S" "D" = Outcome.fatalExit) ∧
    GetShortestPath webBroken id 4 "S" "D" = Outcome.fatalExit ∧
    GetShortestPath webBroken id 4 "S" "D" ≠ Outcome.returned ("No Path Found.", false) := by
  have hnone : ∀ k, neighbours webBroken k = [] := fun _ => rfl
  refine ⟨by decide, by decide, ?_, ?_, ?_, by decide, by decide⟩
  · intro k _ x hx
    rw [hnone k] at hx
    exact absurd hx (List.not_mem_nil _)
  · rintro k ⟨h1, h2⟩
    have hS : ∀ a k, Reach webBroken a k → k ∈ [a] := fun a k h =>
      reach_mem_of_closed webBroken [a]
        (fun y _ x hx => by rw [hnone y] at hx; exact absurd hx (List.not_mem_nil _))
        a (List.mem_singleton_self a) k h
    have a := hS _ _ h1
    have b := hS _ _ h2
    simp only [List.mem_singleton] at a b
    rw [a] at b
    revert b
    decide
  · intro sched fuel hsched hfuel
    obtain ⟨f, rfl⟩ : ∃ f, fuel = f + 1 := ⟨fuel - 1, by omega⟩
    have hs : sched [(rootS, PathIdFromTheFront)] = [(rootS, PathIdFromTheFront)] :=
      List.perm_singleton.1 (hsched _)
    have hpaths : (runRound [] [rootS] [rootD]).paths = [] := by decide
    have hc1 : (runRound [] [rootS] [rootD]).chan1ThreadCount = 1 := by decide
    have hch1 : (runRound [] [rootS] [rootD]).chan1 = [(rootS, PathIdFromTheFront)] := by
      decide
    have hcol : collectRound webBroken sched (runRound [] [rootS] [rootD])
        = Outcome.fatalExit := by
      unfold collectRound
      rw [hc1, hch1]
      unfold deliveries
      rw [hs]
      rfl
    show searchLoop webBroken sched (f + 1) [] [rootS] [rootD] = Outcome.fatalExit
    unfold searchLoop
    rw [if_pos (by decide), if_neg (by rw [hpaths]; decide), hcol]

/-! ## C11: validation of the query -/

/-- C11 (defect in the code): `queryIsValid` reads `start[0]` and `destination[0]` before it
tests `ok`, so a query that lacks one of the two parameters makes it panic, and the handler
with it; only a parameter that is present and empty is reported by a message. -/
theorem queryIsValid_missing_parameter_panics :
    queryIsValid [("destination", ["D"])] = Outcome.panicked ∧
    queryIsValid [("start", ["S"])] = Outcome.panicked ∧
    queryIsValid [] = Outcome.panicked ∧
    WikiRacePureGoHandler (fun _ => PageStatus.status 200) webCommon id 3 "0.1"
        [("destination", ["D"])] = Outcome.panicked ∧
    queryIsValid [("start", [""]), ("destination", ["D"])]
      = Outcome.returned (false, "Url param 'start' is missing. ") ∧
    queryIsValid [("start", ["S"]), ("destination", ["D"])] = Outcome.returned (true, "") := by
  decide

/-! ## C12, C13, C14: one call of `processNode` -/

theorem processNode_nil (m : List (String × node)) (c : Int) (ch : List (node × Int))
    (side : Int) (paths : List String) :
    processNode m [] c ch side paths = (m, [], c, ch, paths) := rfl

theorem processNode_fresh (m : List (String × node)) (popped : node) (rest : List node)
    (c : Int) (ch : List (node × Int)) (side : Int) (paths : List String)
    (h : m.lookup popped.url = none) :
    processNode m (popped :: rest) c ch side paths
      = ((popped.url, popped) :: m, rest, wrapInt (c + 1), ch ++ [(popped, side)], paths) := by
  simp [processNode, h]

theorem processNode_same_side (m : List (String × node)) (popped : node) (rest : List node)
    (c : Int) (ch : List (node × Int)) (side : Int) (paths : List String) (val : node)
    (h : m.lookup popped.url = some val) (hs : val.pathId = side) :
    processNode m (popped :: rest) c ch side paths = (m, rest, c, ch, paths) := by
  simp [processNode, h, hs]

theorem processNode_meeting (m : List (String × node)) (popped : node) (rest : List node)
    (c : Int) (ch : List (node × Int)) (side : Int) (paths : List String) (val : node)
    (h : m.lookup popped.url = some val) (hs : val.pathId ≠ side) :
    processNode m (popped :: rest) c ch side paths
      = (m, rest, c, ch, paths ++ [getPath popped val]) := by
  simp [processNode, h, hs]

/-- The registry after a call is the registry before it, or that with the popped node put
under its key, which was absent. -/
theorem processNode_registry (m : List (String × node)) (q : List node) (c : Int)
    (ch : List (node × Int)) (side : Int) (paths : List String) :
    (processNode m q c ch side paths).1 = m ∨
    ∃ popped rest, q = popped :: rest ∧ m.lookup popped.url = none ∧
      (processNode m q c ch side paths).1 = (popped.url, popped) :: m := by
  cases q with
  | nil => exact Or.inl rfl
  | cons popped rest =>
      cases h : m.lookup popped.url with
      | none =>
          exact Or.inr ⟨popped, rest, rfl, h, by rw [processNode_fresh m popped rest c ch side paths h]⟩
      | some val =>
          by_cases hs : val.pathId = side
          · exact Or.inl (by rw [processNode_same_side m popped rest c ch side paths val h hs])
          · exact Or.inl (by rw [processNode_meeting m popped rest c ch side paths val h hs])

theorem processNode_keys_nodup (m : List (String × node)) (q : List node) (c : Int)
    (ch : List (node × Int)) (side : Int) (paths : List String)
    (hm : (m.map Prod.fst).Nodup) :
    ((processNode m q c ch side paths).1.map Prod.fst).Nodup := by
  rcases processNode_registry m q c ch side paths with h | ⟨popped, rest, _, hl, h⟩
  · rw [h]; exact hm
  · rw [h]
    simp only [List.map_cons, List.nodup_cons]
    refine ⟨?_, hm⟩
    intro hmem
    obtain ⟨⟨k, v⟩, hkv, hk⟩ := List.mem_map.1 hmem
    simp only at hk
    rw [List.lookup_eq_none_iff] at hl
    have hne := hl (k, v) hkv
    simp [hk] at hne

/-! ## Rounds: what holds at every step of the inner and of the outer loop -/

theorem Round.step_eq (r : Round) :
    r.step =
      ⟨(processNode
          (processNode r.urlToNodeMap r.q1 r.chan1ThreadCount r.chan1 PathIdFromTheFront r.paths).1
          r.q2 r.chan2ThreadCount r.chan2 PathIdFromTheRear
          (processNode r.urlToNodeMap r.q1 r.chan1ThreadCount r.chan1 PathIdFromTheFront
            r.paths).2.2.2.2).1,
        (processNode r.urlToNodeMap r.q1 r.chan1ThreadCount r.chan1 PathIdFromTheFront r.paths).2.1,
        (processNode
          (processNode r.urlToNodeMap r.q1 r.chan1ThreadCount r.chan1 PathIdFromTheFront r.paths).1
          r.q2 r.chan2ThreadCount r.chan2 PathIdFromTheRear
          (processNode r.urlToNodeMap r.q1 r.chan1ThreadCount r.chan1 PathIdFromTheFront
            r.paths).2.2.2.2).2.1,
        (processNode r.urlToNodeMap r.q1 r.chan1ThreadCount r.chan1 PathIdFromTheFront
          r.paths).2.2.1,
        (processNode
          (processNode r.urlToNodeMap r.q1 r.chan1ThreadCount r.chan1 PathIdFromTheFront r.paths).1
          r.q2 r.chan2ThreadCount r.chan2 PathIdFromTheRear
          (processNode r.urlToNodeMap r.q1 r.chan1ThreadCount r.chan1 PathIdFromTheFront
            r.paths).2.2.2.2).2.2.1,
        (processNode r.urlToNodeMap r.q1 r.chan1ThreadCount r.chan1 PathIdFromTheFront
          r.paths).2.2.2.1,
        (processNode
          (processNode r.urlToNodeMap r.q1 r.chan1ThreadCount r.chan1 PathIdFromTheFront r.paths).1
          r.q2 r.chan2ThreadCount r.chan2 PathIdFromTheRear
          (processNode r.urlToNodeMap r.q1 r.chan1ThreadCount r.chan1 PathIdFromTheFront
            r.paths).2.2.2.2).2.2.2.1,
        (processNode
          (processNode r.urlToNodeMap r.q1 r.chan1ThreadCount r.chan1 PathIdFromTheFront r.paths).1
          r.q2 r.chan2ThreadCount r.chan2 PathIdFromTheRear
          (processNode r.urlToNodeMap r.q1 r.chan1ThreadCount r.chan1 PathIdFromTheFront
            r.paths).2.2.2.2).2.2.2.2⟩ := rfl

theorem drainQueues_induct (P : Round → Prop) (hstep : ∀ r, P r → P r.step) :
    ∀ (n : Nat) (r : Round), P r → P (drainQueues n r) := by
  intro n
  induction n with
  | zero => intro r h; exact h
  | succ n ih =>
      intro r h
      unfold drainQueues
      split
      · exact ih _ (hstep r h)
      · exact h

theorem runRound_induct (P : Round → Prop) (hstep : ∀ r, P r → P r.step)
    (m : List (String × node)) (q1 q2 : List node)
    (h : P ⟨m, q1, q2, 0, 0, [], [], []⟩) : P (runRound m q1 q2) :=
  drainQueues_induct P hstep _ _ h

theorem collectRound_returned (web : Web) (sched : List (node × Int) → List (node × Int))
    (r : Round) (st : List (String × node) × List node × List node)
    (h : collectRound web sched r = Outcome.returned st) :
    st.1 = r.urlToNodeMap ∧
    addThreadToNextQueue r.chan1ThreadCount (deliveries web sched r.chan1) []
      = Outcome.returned st.2.1 ∧
    addThreadToNextQueue r.chan2ThreadCount (deliveries web sched r.chan2) []
      = Outcome.returned st.2.2 := by
  unfold collectRound at h
  cases h1 : addThreadToNextQueue r.chan1ThreadCount (deliveries web sched r.chan1) [] with
  | returned n1 =>
      rw [h1] at h
      cases h2 : addThreadToNextQueue r.chan2ThreadCount (deliveries web sched r.chan2) [] with
      | returned n2 =>
          rw [h2] at h
          simp only [Outcome.returned.injEq] at h
          subst h
          exact ⟨rfl, rfl, rfl⟩
      | fatalExit => rw [h2] at h; simp at h
      | panicked => rw [h2] at h; simp at h
      | deadlocked => rw [h2] at h; simp at h
      | outOfFuel => rw [h2] at h; simp at h
  | fatalExit => rw [h1] at h; simp at h
  | panicked => rw [h1] at h; simp at h
  | deadlocked => rw [h1] at h; simp at h
  | outOfFuel => rw [h1] at h; simp at h

theorem roundStart_succ (web : Web) (sched : List (node × Int) → List (node × Int))
    (s d : String) (n : Nat) (st : List (String × node) × List node × List node)
    (h : roundStart web sched s d (n + 1) = some st) :
    ∃ m q1 q2, roundStart web sched s d n = some (m, q1, q2) ∧
      (runRound m q1 q2).paths = [] ∧
      collectRound web sched (runRound m q1 q2) = Outcome.returned st := by
  unfold roundStart at h
  cases hn : roundStart web sched s d n with
  | none => rw [hn] at h; simp at h
  | some prev =>
      obtain ⟨m, q1, q2⟩ := prev
      rw [hn] at h
      simp only at h
      by_cases hq : 0 < q1.length ∨ 0 < q2.length
      · rw [if_pos hq] at h
        by_cases hp : (runRound m q1 q2).paths.length ≠ 0
        · rw [if_pos hp] at h; simp at h
        · rw [if_neg hp] at h
          refine ⟨m, q1, q2, rfl, List.length_eq_zero.1 (not_not.1 hp), ?_⟩
          cases hc : collectRound web sched (runRound m q1 q2) with
          | returned st2 =>
              rw [hc] at h
              simp only [Option.some.injEq] at h
              rw [h]
          | fatalExit => rw [hc] at h; simp at h
          | panicked => rw [hc] at h; simp at h
          | deadlocked => rw [hc] at h; simp at h
          | outOfFuel => rw [hc] at h; simp at h
      · rw [if_neg hq] at h; simp at h

theorem runRound_keys_nodup (m : List (String × node)) (q1 q2 : List node)
    (hm : (m.map Prod.fst).Nodup) :
    ((runRound m q1 q2).urlToNodeMap.map Prod.fst).Nodup := by
  apply runRound_induct (fun r => (r.urlToNodeMap.map Prod.fst).Nodup)
  · intro r h
    rw [Round.step_eq]
    exact processNode_keys_nodup _ _ _ _ _ _ (processNode_keys_nodup _ _ _ _ _ _ h)
  · exact hm

theorem roundStart_keys_nodup (web : Web) (sched : List (node × Int) → List (node × Int))
    (s d : String) :
    ∀ (n : Nat) (st : List (String × node) × List node × List node),
      roundStart web sched s d n = some st → (st.1.map Prod.fst).Nodup := by
  intro n
  induction n with
  | zero =>
      intro st h
      simp only [roundStart, Option.some.injEq] at h
      subst h
      exact List.nodup_nil
  | succ n ih =>
      intro st h
      obtain ⟨m, q1, q2, hn, _, hc⟩ := roundStart_succ web sched s d n st h
      rw [(collectRound_returned web sched _ st hc).1]
      exact runRound_keys_nodup m q1 q2 (ih _ hn)

/-! ## C12: the first write wins -/

/-- C12: `processNode` keeps every entry of the registry, can add only the popped node,
under its own key and only when that key was absent, and keeps the keys distinct; so in
every round of a search the registry holds each key once. -/
theorem processNode_first_write_wins (m : List (String × node)) (q : List node) (c : Int)
    (ch : List (node × Int)) (side : Int) (paths : List String) :
    (∀ k v, m.lookup k = some v → (processNode m q c ch side paths).1.lookup k = some v) ∧
    (∀ k v, m.lookup k = none → (processNode m q c ch side paths).1.lookup k = some v →
      ∃ rest, q = v :: rest ∧ k = v.url) ∧
    ((m.map Prod.fst).Nodup → ((processNode m q c ch side paths).1.map Prod.fst).Nodup) ∧
    (∀ (web : Web) (sched : List (node × Int) → List (node × Int)) (s d : String) (n : Nat)
        (st : List (String × node) × List node × List node),
      roundStart web sched s d n = some st →
        (st.1.map Prod.fst).Nodup ∧
        ((runRound st.1 st.2.1 st.2.2).urlToNodeMap.map Prod.fst).Nodup) := by
  refine ⟨?_, ?_, processNode_keys_nodup m q c ch side paths, ?_⟩
  · intro k v hk
    rcases processNode_registry m q c ch side paths with h | ⟨popped, rest, _, hl, h⟩
    · rw [h]; exact hk
    · rw [h, List.lookup_cons]
      have hne : (k == popped.url) = false := by
        rw [beq_eq_false_iff_ne]
        intro e
        rw [e, hl] at hk
        simp at hk
      rw [hne]
      exact hk
  · intro k v hk hv
    rcases processNode_registry m q c ch side paths with h | ⟨popped, rest, hq, _, h⟩
    · rw [h, hk] at hv
      simp at hv
    · rw [h, List.lookup_cons] at hv
      by_cases e : k = popped.url
      · have he : (k == popped.url) = true := by rw [beq_iff_eq]; exact e
        rw [he] at hv
        simp only [Option.some.injEq] at hv
        subst hv
        exact ⟨rest, hq, e⟩
      · have he : (k == popped.url) = false := by rw [beq_eq_false_iff_ne]; exact e
        rw [he, hk] at hv
        simp at hv
  · intro web sched s d n st h
    have h1 := roundStart_keys_nodup web sched s d n st h
    exact ⟨h1, runRound_keys_nodup _ _ _ h1⟩

/-! ## C13: when a path is emitted -/

/-- C13: for a non-empty queue `processNode` appends a path exactly when the key of the
popped node is registered under the opposite side; it then appends the one path
`getPath popped val` and leaves the registry, the task count and the channel as they
were.  When the key is registered under the same side or not at all, `paths` is
unchanged. -/
theorem processNode_path_iff_meeting (m : List (String × node)) (popped : node)
    (rest : List node) (c : Int) (ch : List (node × Int)) (side : Int) (paths : List String) :
    ((processNode m (popped :: rest) c ch side paths).2.2.2.2 ≠ paths ↔
      ∃ val, m.lookup popped.url = some val ∧ val.pathId ≠ side) ∧
    (∀ val, m.lookup popped.url = some val → val.pathId ≠ side →
      processNode m (popped :: rest) c ch side paths
        = (m, rest, c, ch, paths ++ [getPath popped val])) ∧
    (∀ val, m.lookup popped.url = some val → val.pathId = side →
      (processNode m (popped :: rest) c ch side paths).2.2.2.2 = paths) ∧
    (m.lookup popped.url = none →
      (processNode m (popped :: rest) c ch side paths).2.2.2.2 = paths) := by
  refine ⟨?_, ?_, ?_, ?_⟩
  · cases h : m.lookup popped.url with
    | none =>
        rw [processNode_fresh m popped rest c ch side paths h]
        simp
    | some val =>
        by_cases hs : val.pathId = side
        · rw [processNode_same_side m popped rest c ch side paths val h hs]
          simp [hs]
        · rw [processNode_meeting m popped rest c ch side paths val h hs]
          simp [hs]
  · intro val h hs
    exact processNode_meeting m popped rest c ch side paths val h hs
  · intro val h hs
    rw [processNode_same_side m popped rest c ch side paths val h hs]
  · intro h
    rw [processNode_fresh m popped rest c ch side paths h]

/-! ## C14: the count of dispatched tasks -/

/-- A call from a state in which the count is the number of tasks launched, and in which
the tasks launched and the nodes queued are fewer than `2 ^ 63` together, leads to such a
state. -/
theorem processNode_count (m : List (String × node)) (q : List node) (c : Int)
    (ch : List (node × Int)) (side : Int) (paths : List String) (hc : c = ch.length)
    (hb : ch.length + q.length < 2 ^ 63) :
    (processNode m q c ch side paths).2.2.1
      = ((processNode m q c ch side paths).2.2.2.1.length : Int) ∧
    (processNode m q c ch side paths).2.2.2.1.length
        + (processNode m q c ch side paths).2.1.length ≤ ch.length + q.length := by
  cases q with
  | nil => exact ⟨hc, le_refl _⟩
  | cons popped rest =>
      simp only [List.length_cons] at hb
      cases h : m.lookup popped.url with
      | none =>
          rw [processNode_fresh m popped rest c ch side paths h]
          have hwrap : wrapInt (c + 1) = c + 1 := by
            apply wrapInt_of_range
            · unfold MinInt; omega
            · unfold MaxInt; omega
          dsimp only
          rw [hwrap, List.length_append, List.length_singleton, List.length_cons]
          constructor
          · rw [hc]; push_cast; rfl
          · omega
      | some val =>
          by_cases hs : val.pathId = side
          · rw [processNode_same_side m popped rest c ch side paths val h hs]
            dsimp only
            rw [List.length_cons]
            exact ⟨hc, by omega⟩
          · rw [processNode_meeting m popped rest c ch side paths val h hs]
            dsimp only
            rw [List.length_cons]
            exact ⟨hc, by omega⟩

theorem runRound_counts (m : List (String × node)) (q1 q2 : List node)
    (h1 : q1.length < 2 ^ 63) (h2 : q2.length < 2 ^ 63) :
    (runRound m q1 q2).chan1ThreadCount = (runRound m q1 q2).chan1.length ∧
    (runRound m q1 q2).chan2ThreadCount = (runRound m q1 q2).chan2.length := by
  have key := runRound_induct
    (fun r => (r.chan1ThreadCount = (r.chan1.length : Int) ∧
        r.chan1.length + r.q1.length ≤ q1.length) ∧
      (r.chan2ThreadCount = (r.chan2.length : Int) ∧
        r.chan2.length + r.q2.length ≤ q2.length))
    (fun r h => by
      rw [Round.step_eq]
      dsimp only
      have a := processNode_count r.urlToNodeMap r.q1 r.chan1ThreadCount r.chan1
        PathIdFromTheFront r.paths h.1.1 (by omega)
      have b := processNode_count
        (processNode r.urlToNodeMap r.q1 r.chan1ThreadCount r.chan1 PathIdFromTheFront r.paths).1
        r.q2 r.chan2ThreadCount r.chan2 PathIdFromTheRear
        (processNode r.urlToNodeMap r.q1 r.chan1ThreadCount r.chan1 PathIdFromTheFront
          r.paths).2.2.2.2 h.2.1 (by omega)
      exact ⟨⟨a.1, by omega⟩, ⟨b.1, by omega⟩⟩)
    m q1 q2 ⟨⟨rfl, by simp⟩, ⟨rfl, by simp⟩⟩
  exact ⟨key.1.1, key.2.1⟩

theorem receiveBatches_takes (batches : List (List node))
    (later : List (Option (List node))) :
    ∀ acc : List node,
      receiveBatches batches.length (batches.map some ++ later) acc
        = Outcome.returned (acc ++ batches.flatten) := by
  induction batches with
  | nil =>
      intro acc
      cases later <;> simp [receiveBatches]
  | cons b bs ih =>
      intro acc
      simp [receiveBatches, ih]

theorem addThreadToNextQueue_takes (batches : List (List node))
    (later : List (Option (List node))) (acc : List node) :
    addThreadToNextQueue batches.length (batches.map some ++ later) acc
      = Outcome.returned (acc ++ batches.flatten) := by
  unfold addThreadToNextQueue
  rw [Int.toNat_ofNat]
  exact receiveBatches_takes batches later acc

/-- C14, as stated, fails: the count is a Go `int`, and a call that registers the popped
node with the count at the largest `int` leaves it at the smallest `int`, not one
higher. -/
theorem processNode_count_wraps_at_MaxInt :
    MaxInt = 9223372036854775807 ∧
    processNode [] [rootS] MaxInt [] PathIdFromTheFront []
      = ([(rootS.url, rootS)], [], -9223372036854775808, [(rootS, PathIdFromTheFront)], []) ∧
    (-9223372036854775808 : Int) ≠ MaxInt + 1 := by
  decide

/-- C14, amended: a call of `processNode` with a count below the largest `int` raises the
count by exactly one when the key of the popped node was not registered, and then registers
the node under its key and launches one lookup for it; otherwise, also on an empty queue,
the count, the registry and the channel stay as they were, whatever the count.  The counts
of a round start at 0 and its queues, being slices, hold fewer than `2 ^ 63` nodes; so at
the end of a round each count is the number of tasks launched against its channel, which
is the number of batches `addThreadToNextQueue` receives and the number the tasks
deliver. -/
theorem processNode_counts_dispatched (m : List (String × node)) (c : Int)
    (ch : List (node × Int)) (side : Int) (paths : List String) (q1 q2 : List node)
    (web : Web) (sched : List (node × Int) → List (node × Int))
    (hlo : MinInt ≤ c) (hhi : c < MaxInt)
    (h1 : q1.length < 2 ^ 63) (h2 : q2.length < 2 ^ 63)
    (hsched : ∀ l, (sched l).Perm l) :
    (∀ popped rest, m.lookup popped.url = none →
      processNode m (popped :: rest) c ch side paths
        = ((popped.url, popped) :: m, rest, c + 1, ch ++ [(popped, side)], paths)) ∧
    (∀ c0 : Int, processNode m [] c0 ch side paths = (m, [], c0, ch, paths)) ∧
    (∀ (c0 : Int) (popped : node) (rest : List node) (val : node),
      m.lookup popped.url = some val →
      (processNode m (popped :: rest) c0 ch side paths).1 = m ∧
      (processNode m (popped :: rest) c0 ch side paths).2.2.1 = c0 ∧
      (processNode m (popped :: rest) c0 ch side paths).2.2.2.1 = ch) ∧
    ((runRound m q1 q2).chan1ThreadCount = (runRound m q1 q2).chan1.length ∧
      (runRound m q1 q2).chan2ThreadCount = (runRound m q1 q2).chan2.length) ∧
    (∀ (batches : List (List node)) (later : List (Option (List node))) (acc : List node),
      addThreadToNextQueue batches.length (batches.map some ++ later) acc
        = Outcome.returned (acc ++ batches.flatten)) ∧
    (((deliveries web sched (runRound m q1 q2).chan1).length : Int)
        = (runRound m q1 q2).chan1ThreadCount ∧
      ((deliveries web sched (runRound m q1 q2).chan2).length : Int)
        = (runRound m q1 q2).chan2ThreadCount) := by
  have hcounts := runRound_counts m q1 q2 h1 h2
  refine ⟨?_, fun c0 => rfl, ?_, hcounts,
    fun batches later acc => addThreadToNextQueue_takes batches later acc, ?_⟩
  · intro popped rest h
    rw [processNode_fresh m popped rest c ch side paths h,
      wrapInt_of_range (c + 1) (by omega) (by omega)]
  · intro c0 popped rest val h
    by_cases hs : val.pathId = side
    · rw [processNode_same_side m popped rest c0 ch side paths val h hs]
      exact ⟨rfl, rfl, rfl⟩
    · rw [processNode_meeting m popped rest c0 ch side paths val h hs]
      exact ⟨rfl, rfl, rfl⟩
  · constructor
    · rw [hcounts.1]
      simp only [deliveries, List.length_map]
      rw [(hsched _).length_eq]
    · rw [hcounts.2]
      simp only [deliveries, List.length_map]
      rw [(hsched _).length_eq]

/-- Witness for C14, amended: the first round of the search in `webCommon`, in which each
side registers its root and launches one lookup. -/
theorem processNode_counts_dispatched_witness :
    MinInt ≤ (0 : Int) ∧ (0 : Int) < MaxInt ∧
    [rootS].length < 2 ^ 63 ∧ [rootD].length < 2 ^ 63 ∧
    (∀ l : List (node × Int), (id l).Perm l) ∧
    processNode [] [rootS] 0 [] PathIdFromTheFront []
      = ([(rootS.url, rootS)], [], 0 + 1, [] ++ [(rootS, PathIdFromTheFront)], []) ∧
    (runRound [] [rootS] [rootD]).chan1ThreadCount = 1 ∧
    (runRound [] [rootS] [rootD]).chan1 = [(rootS, PathIdFromTheFront)] ∧
    ((runRound [] [rootS] [rootD]).chan1ThreadCount
        = ((runRound [] [rootS] [rootD]).chan1.length : Int) ∧
      (runRound [] [rootS] [rootD]).chan2ThreadCount
        = ((runRound [] [rootS] [rootD]).chan2.length : Int)) ∧
    ((deliveries webCommon id (runRound [] [rootS] [rootD]).chan1).length : Int)
      = (runRound [] [rootS] [rootD]).chan1ThreadCount :=
  have h := processNode_counts_dispatched [] 0 [] PathIdFromTheFront [] [rootS] [rootD]
    webCommon id (by decide) (by decide) (by decide) (by decide) (fun l => List.Perm.refl l)
  ⟨by decide, by decide, by decide, by decide, fun l => List.Perm.refl l,
    h.1 rootS [] rfl, by decide, by decide, h.2.2.2.1, h.2.2.2.2.2.1⟩

/-! ## C15: the path field of a response -/

theorem Outcome.bind_eq_returned {α β : Type} (x : Outcome α) (f : α → Outcome β) (b : β)
    (h : x.bind f = Outcome.returned b) : ∃ a, x = Outcome.returned a ∧ f a = Outcome.returned b := by
  cases x with
  | returned a => exact ⟨a, rfl, h⟩
  | fatalExit => simp [Outcome.bind] at h
  | panicked => simp [Outcome.bind] at h
  | deadlocked => simp [Outcome.bind] at h
  | outOfFuel => simp [Outcome.bind] at h

theorem searchLoop_not_found (web : Web) (sched : List (node × Int) → List (node × Int))
    (p : String) :
    ∀ (fuel : Nat) (m : List (String × node)) (q1 q2 : List node),
      searchLoop web sched fuel m q1 q2 = Outcome.returned (p, false) →
      p = "No Path Found." := by
  intro fuel
  induction fuel with
  | zero =>
      intro m q1 q2 h
      simp [searchLoop] at h
  | succ fuel ih =>
      intro m q1 q2 h
      unfold searchLoop at h
      by_cases hq : 0 < q1.length ∨ 0 < q2.length
      · rw [if_pos hq] at h
        by_cases hp : (runRound m q1 q2).paths.length ≠ 0
        · rw [if_pos hp] at h
          cases hf : filterShortestPath (runRound m q1 q2).paths with
          | none => rw [hf] at h; simp at h
          | some p2 => rw [hf] at h; simp at h
        · rw [if_neg hp] at h
          cases hc : collectRound web sched (runRound m q1 q2) with
          | returned st =>
              obtain ⟨m3, q3, q4⟩ := st
              rw [hc] at h
              exact ih m3 q3 q4 h
          | fatalExit => rw [hc] at h; simp at h
          | panicked => rw [hc] at h; simp at h
          | deadlocked => rw [hc] at h; simp at h
          | outOfFuel => rw [hc] at h; simp at h
      · rw [if_neg hq] at h
        simp only [Outcome.returned.injEq, Prod.mk.injEq, and_true] at h
        exact h.symm

/-- C15, as stated, fails: for two existing pages without a connection the handler answers
with `completed = false` and the path `No Path Found.`, which is not the empty string. -/
theorem handler_not_completed_path_not_empty :
    WikiRacePureGoHandler (fun _ => PageStatus.status 200) webApart id 6 "0.5"
        [("start", ["S"]), ("destination", ["D"])]
      = Outcome.returned (some
          { Completed := false, Destination := "D", ElapsedTimeSec := "0.5", Message := "",
            Path := "No Path Found.", Start := "S" }) ∧
    "No Path Found." ≠ "" := by
  decide

/-- C15, amended: a response with `completed = false` is either an error response, whose
path is the empty string, or the response to a search that found no path, whose path is
the sentinel `No Path Found.`. -/
theorem handler_path_when_not_completed (get : String → PageStatus) (web : Web)
    (sched : List (node × Int) → List (node × Int)) (fuel : Nat) (elapsed : String)
    (query : List (String × List String)) (resp : wikiRaceResponse)
    (h : WikiRacePureGoHandler get web sched fuel elapsed query = Outcome.returned (some resp))
    (hc : resp.Completed = false) :
    (∀ msg, (getErrorResponse msg).Completed = false ∧ (getErrorResponse msg).Path = "") ∧
    ((resp = getErrorResponse resp.Message ∧ resp.Path = "") ∨
      (resp.Path = "No Path Found." ∧ resp.Message = "" ∧
        GetShortestPath web sched fuel resp.Start resp.Destination
          = Outcome.returned ("No Path Found.", false))) := by
  refine ⟨fun msg => ⟨rfl, rfl⟩, ?_⟩
  unfold WikiRacePureGoHandler at h
  obtain ⟨v1, _, h⟩ := Outcome.bind_eq_returned _ _ _ h
  by_cases hv : (!v1.1) = true
  · rw [if_pos hv] at h
    simp only [Outcome.returned.injEq, Option.some.injEq] at h
    subst h
    exact Or.inl ⟨rfl, rfl⟩
  · rw [if_neg hv] at h
    obtain ⟨articles, _, h⟩ := Outcome.bind_eq_returned _ _ _ h
    obtain ⟨e1, _, h⟩ := Outcome.bind_eq_returned _ _ _ h
    by_cases he1 : (!e1.1) = true
    · rw [if_pos he1] at h
      simp only [Outcome.returned.injEq, Option.some.injEq] at h
      subst h
      exact Or.inl ⟨rfl, rfl⟩
    · rw [if_neg he1] at h
      obtain ⟨e2, _, h⟩ := Outcome.bind_eq_returned _ _ _ h
      by_cases he2 : (!e2.1) = true
      · rw [if_pos he2] at h
        simp only [Outcome.returned.injEq, Option.some.injEq] at h
        subst h
        exact Or.inl ⟨rfl, rfl⟩
      · rw [if_neg he2] at h
        by_cases hb : (e1.1 && e2.1) = true
        · rw [if_pos hb] at h
          obtain ⟨res, hres, h⟩ := Outcome.bind_eq_returned _ _ _ h
          simp only [Outcome.returned.injEq, Option.some.injEq] at h
          subst h
          simp only at hc
          obtain ⟨p, found⟩ := res
          simp only at hc
          subst hc
          have hp := searchLoop_not_found web sched p fuel _ _ _ hres
          subst hp
          exact Or.inr ⟨rfl, rfl, hres⟩
        · rw [if_neg hb] at h
          simp at h

/-- Witness for C15, amended: the response to a search between two pages without a
connection. -/
theorem handler_path_when_not_completed_witness :
    WikiRacePureGoHandler (fun _ => PageStatus.status 200) webApart id 6 "0.5"
        [("start", ["S"]), ("destination", ["D"])]
      = Outcome.returned (some
          { Completed := false, Destination := "D", ElapsedTimeSec := "0.5", Message := "",
            Path := "No Path Found.", Start := "S" }) ∧
    (∀ msg, (getErrorResponse msg).Completed = false ∧ (getErrorResponse msg).Path = "") ∧
    ((({ Completed := false, Destination := "D", ElapsedTimeSec := "0.5", Message := "",
          Path := "No Path Found.", Start := "S" } : wikiRaceResponse) = getErrorResponse "" ∧
        "No Path Found." = "") ∨
      ("No Path Found." = "No Path Found." ∧ "" = "" ∧
        GetShortestPath webApart id 6 "S" "D" = Outcome.returned ("No Path Found.", false))) :=
  ⟨by decide,
    handler_path_when_not_completed (fun _ => PageStatus.status 200) webApart id 6 "0.5"
      [("start", ["S"]), ("destination", ["D"])]
      { Completed := false, Destination := "D", ElapsedTimeSec := "0.5", Message := "",
        Path := "No Path Found.", Start := "S" } (by decide) rfl⟩

/-! ## C18: the two link predicates -/

/-- C18: `containsExcludedPrefix href` is true exactly when `href` begins with one of the
nine listed prefixes, and `isWikiArticle href` is true exactly when `href` begins with
`/wiki/` and `containsExcludedPrefix href` is false; so `isWikiArticle` is false for every
`href` that does not begin with `/wiki/`, such as `/yowzer/wiki/yowza`. -/
theorem containsExcludedPrefix_iff (href : String) :
    (containsExcludedPrefix href = true ↔
      (BeginsWith href "/wiki/File" ∨
       BeginsWith href "/wiki/Geographic_coordinate_system" ∨
       BeginsWith href "/wiki/Help" ∨
       BeginsWith href "/wiki/ISBN_" ∨
       BeginsWith href "/wiki/ISSN_" ∨
       BeginsWith href "/wiki/Main_Page" ∨
       BeginsWith href "/wiki/Special" ∨
       BeginsWith href "/wiki/Wayback_Machine" ∨
       BeginsWith href "/wiki/Wikipedia:")) ∧
    (isWikiArticle href = true ↔
      BeginsWith href "/wiki/" ∧ containsExcludedPrefix href = false) ∧
    (¬ BeginsWith href "/wiki/" → isWikiArticle href = false) ∧
    ¬ BeginsWith "/yowzer/wiki/yowza" "/wiki/" ∧
    isWikiArticle "/yowzer/wiki/yowza" = false ∧
    isWikiArticle "/wiki/Madison,_Wisconsin" = true ∧
    containsExcludedPrefix "/wiki/Special" = true ∧
    containsExcludedPrefix "yabba dabba do" = false := by
  refine ⟨?_, ?_, ?_, ?_, by decide, by decide, by decide, by decide⟩
  · simp only [← hasPrefix_iff]
    simp [containsExcludedPrefix, prefixesToExclude]
  · simp only [← hasPrefix_iff]
    simp only [isWikiArticle, Bool.and_eq_true, Bool.not_eq_true']
    tauto
  · simp only [← hasPrefix_iff]
    intro h
    simp [isWikiArticle, h]
  · simp only [← hasPrefix_iff]
    decide

/-! ## C20: a search from a title to itself -/

theorem rdropWhile_append_all {α : Type} (p : α → Bool) (s : List α) :
    ∀ l : List α, (∀ c ∈ s, p c = true) → (l ++ s).rdropWhile p = l.rdropWhile p := by
  induction s with
  | nil => intro l _; simp
  | cons c s ih =>
      intro l h
      have hc : p c = true := h c (List.mem_cons_self _ _)
      have hs : ∀ x ∈ s, p x = true := fun x hx => h x (List.mem_cons_of_mem _ hx)
      have : l ++ c :: s = (l ++ [c]) ++ s := by simp
      rw [this, ih (l ++ [c]) hs, List.rdropWhile_concat_pos _ _ _ hc]

theorem rdropWhile_append_keep {α : Type} (p : α → Bool) (pre : List α) :
    ∀ u : List α, u.rdropWhile p ≠ [] → (pre ++ u).rdropWhile p = pre ++ u.rdropWhile p := by
  intro u
  induction u using List.reverseRecOn with
  | nil => intro h; simp at h
  | append_singleton v c ih =>
      intro h
      by_cases hc : p c = true
      · rw [List.rdropWhile_concat_pos _ _ _ hc] at h ⊢
        rw [← List.append_assoc, List.rdropWhile_concat_pos _ _ _ hc]
        exact ih h
      · rw [List.rdropWhile_concat_neg _ _ _ hc]
        rw [← List.append_assoc, List.rdropWhile_concat_neg _ _ _ hc]

theorem TrimRight_append_delimiter (s : String) :
    TrimRight (s ++ " -> ") " -> " = TrimRight s " -> " := by
  unfold TrimRight
  rw [String.data_append]
  exact congrArg String.mk (rdropWhile_append_all _ _ _ (by decide))

theorem filterShortestPath_singleton (p : String) : filterShortestPath [p] = some p := by
  obtain ⟨i, r, hi, hr, _, _⟩ := filterShortestPath_cons p []
  rw [hr]
  match i, hi with
  | 0, hi => simpa [eq_comm] using hi
  | (k + 1), hi => simp at hi

/-- C20 (defect in the code): a search from a title to itself returns found = true in its
first round, whatever the lookups would give, but the path is the key after
`strings.TrimRight`, which for a title that ends in a hyphen is not the key (the defect
of C3). -/
theorem GetShortestPath_same_title (web : Web)
    (sched : List (node × Int) → List (node × Int)) (fuel : Nat) (t : String) :
    GetShortestPath web sched (fuel + 1) t t
      = Outcome.returned (TrimRight (keyOf t) " -> ", true) ∧
    keyOf "S-" = "https://en.m.wikipedia.org/wiki/S-" ∧
    GetShortestPath webBroken id 1 "S-" "S-"
      = Outcome.returned ("https://en.m.wikipedia.org/wiki/S", true) ∧
    GetShortestPath webCommon id 1 "S" "S"
      = Outcome.returned ("https://en.m.wikipedia.org/wiki/S", true) := by
  refine ⟨?_, by decide, by decide, by decide⟩
  have hround : (runRound [] [buildNodeFromArticle t PathIdFromTheFront]
      [buildNodeFromArticle t PathIdFromTheRear]).paths
        = [TrimRight (keyOf t) " -> "] := by
    have hne : PathIdFromTheFront ≠ PathIdFromTheRear := by decide
    simp [runRound, drainQueues, Round.step, processNode, buildNodeFromArticle, node.url,
      node.pathId, hne, getPath, getPathFront, node.parent, keyOf]
    exact TrimRight_append_delimiter _
  unfold GetShortestPath searchLoop
  rw [if_pos (Or.inl (by simp)), if_pos (by rw [hround]; simp), hround,
    filterShortestPath_singleton]

/-! ## C16: swapping the two nodes of a meeting -/

theorem keysToRoot_eq (a : node) : keysToRoot a = a.url :: (keysToRoot a).tail := by
  cases a with
  | mk p i u => cases p <;> simp [keysToRoot, node.url]

theorem keysFromRoot_eq_reverse : ∀ a : node, keysFromRoot a = (keysToRoot a).reverse
  | node.mk none _ _ => by simp [keysFromRoot, keysToRoot]
  | node.mk (some p) _ _ => by
      have ih := keysFromRoot_eq_reverse p
      simp [keysFromRoot, keysToRoot, ih]

theorem keysFromRoot_eq (a : node) :
    keysFromRoot a = (keysToRoot a).tail.reverse ++ [a.url] := by
  rw [keysFromRoot_eq_reverse, keysToRoot_eq a]
  simp

theorem getPathFront_data : ∀ (a : node) (acc : String),
    (getPathFront a acc).data
      = ((keysFromRoot a).map (fun k => k.data ++ " -> ".data)).flatten ++ acc.data
  | node.mk none _ u, acc => by
      simp [getPathFront, keysFromRoot, String.data_append]
  | node.mk (some p) _ u, acc => by
      have ih := getPathFront_data p (u ++ " -> " ++ acc)
      simp [getPathFront, keysFromRoot, ih, String.data_append]

theorem getPathRear_data : ∀ (p : node) (acc : String),
    (getPathRear p acc).data
      = acc.data ++ ((keysToRoot p).map (fun k => " -> ".data ++ k.data)).flatten
  | node.mk none _ u, acc => by
      simp [getPathRear, keysToRoot, String.data_append]
  | node.mk (some p) _ u, acc => by
      have ih := getPathRear_data p (acc ++ " -> " ++ u)
      simp [getPathRear, keysToRoot, ih, String.data_append]

theorem intercalate_go_data (s : String) : ∀ (l : List String) (acc : String),
    (String.intercalate.go acc s l).data
      = acc.data ++ (l.map (fun k => s.data ++ k.data)).flatten := by
  intro l
  induction l with
  | nil => intro acc; simp [String.intercalate.go]
  | cons x l ih =>
      intro acc
      simp [String.intercalate.go, ih, String.data_append]

theorem intercalate_data (s x : String) (back : List String) : ∀ front : List String,
    (s.intercalate (front ++ x :: back)).data
      = (front.map (fun k => k.data ++ s.data)).flatten ++ x.data
          ++ (back.map (fun k => s.data ++ k.data)).flatten := by
  intro front
  induction front with
  | nil => simp [String.intercalate, intercalate_go_data]
  | cons y front ih =>
      cases hf : front ++ x :: back with
      | nil => simp at hf
      | cons z rest =>
          have h1 : (s.intercalate (z :: rest)).data
              = z.data ++ (rest.map (fun k => s.data ++ k.data)).flatten := by
            simp [String.intercalate, intercalate_go_data]
          rw [hf, h1] at ih
          simp only [List.cons_append, hf, String.intercalate, intercalate_go_data,
            List.map_cons, List.flatten_cons, List.append_assoc]
          rw [ih]
          simp

theorem getPath_tail_data (b : node) (path : String) :
    (match b.parent with
      | none => path
      | some p => getPathRear p path).data
      = path.data ++ ((keysToRoot b).tail.map (fun k => " -> ".data ++ k.data)).flatten := by
  cases b with
  | mk p i u =>
      cases p with
      | none => simp [node.parent, keysToRoot]
      | some q => simp [node.parent, keysToRoot, getPathRear_data]

theorem getPath_eq_intercalate (a b : node) (hkey : TrimRight a.url " -> " ≠ "") :
    getPath a b = " -> ".intercalate (renderedKeys a b) := by
  have hkeep : a.url.data.rdropWhile (fun c => decide (c ∈ " -> ".data)) ≠ [] := by
    intro he
    apply hkey
    unfold TrimRight
    rw [he]
  apply String.ext
  unfold getPath
  rw [getPath_tail_data, renderedKeys, intercalate_data]
  congr 1
  simp only [TrimRight, getPathFront_data]
  rw [keysFromRoot_eq a]
  simp only [List.dropLast_concat, List.map_append, List.map_cons, List.map_nil,
    List.flatten_append, List.flatten_cons, List.flatten_nil, List.append_nil]
  rw [← List.append_assoc, rdropWhile_append_all _ _ _ (by decide)]
  exact rdropWhile_append_keep _ _ _ hkeep

/-- For two nodes with the same key, the key sequence of `getPath a b` is the reverse of
the key sequence of `getPath b a` as the chains list the keys (`meetingKeys`); the two
strings are the sequences `renderedKeys`, reverses of each other, joined by the delimiter
when the shared key keeps a character after the trimming of `strings.TrimRight`. -/
theorem getPath_swap_reverses_keys (a b : node) (h : a.url = b.url) :
    meetingKeys a b = (meetingKeys b a).reverse ∧
    renderedKeys a b = (renderedKeys b a).reverse ∧
    (TrimRight a.url " -> " ≠ "" →
      getPath a b = " -> ".intercalate (renderedKeys a b) ∧
      getPath b a = " -> ".intercalate (renderedKeys a b).reverse) := by
  have hre : renderedKeys a b = (renderedKeys b a).reverse := by
    unfold renderedKeys
    rw [keysFromRoot_eq a, keysFromRoot_eq b, h]
    simp
  refine ⟨?_, hre, ?_⟩
  · unfold meetingKeys
    rw [keysFromRoot_eq a, keysFromRoot_eq b, h]
    simp
  · intro hkey
    refine ⟨getPath_eq_intercalate a b hkey, ?_⟩
    rw [hre, List.reverse_reverse]
    exact getPath_eq_intercalate b a (by rw [← h]; exact hkey)

/-- The two nodes for the page `C-`, found from `S` and from `D`. -/
theorem getPath_swap_reverses_keys_witness :
    frontDash.url = rearDash.url ∧
    meetingKeys frontDash rearDash = (meetingKeys rearDash frontDash).reverse ∧
    renderedKeys frontDash rearDash = (renderedKeys rearDash frontDash).reverse ∧
    (TrimRight frontDash.url " -> " ≠ "" →
      getPath frontDash rearDash = " -> ".intercalate (renderedKeys frontDash rearDash) ∧
      getPath rearDash frontDash
        = " -> ".intercalate (renderedKeys frontDash rearDash).reverse) :=
  ⟨by decide, getPath_swap_reverses_keys frontDash rearDash (by decide)⟩

/-- C16 (defect in the code): `frontHyphen` and `rearHyphen` have the same key, `-`.
Their chains list the keys `S`, `-`, `-`, `D` and, swapped, the reverse of that; but
`strings.TrimRight` removes the key `-` together with the delimiters around it, so
`getPath` renders `S`, `D` for the pair and `D`, `-`, `S` for the swapped pair, which are
not reverses of each other. -/
theorem getPath_swap_not_reversed :
    frontHyphen.url = rearHyphen.url ∧
    meetingKeys frontHyphen rearHyphen
      = ["https://en.m.wikipedia.org/wiki/S", "-", "-", "https://en.m.wikipedia.org/wiki/D"] ∧
    meetingKeys rearHyphen frontHyphen = (meetingKeys frontHyphen rearHyphen).reverse ∧
    getPath frontHyphen rearHyphen
      = "https://en.m.wikipedia.org/wiki/S -> https://en.m.wikipedia.org/wiki/D" ∧
    getPath rearHyphen frontHyphen
      = "https://en.m.wikipedia.org/wiki/D -> - -> https://en.m.wikipedia.org/wiki/S" ∧
    getPath frontHyphen rearHyphen
      = " -> ".intercalate
          ["https://en.m.wikipedia.org/wiki/S", "https://en.m.wikipedia.org/wiki/D"] ∧
    getPath rearHyphen frontHyphen
      = " -> ".intercalate
          ["https://en.m.wikipedia.org/wiki/D", "-", "https://en.m.wikipedia.org/wiki/S"] ∧
    ["https://en.m.wikipedia.org/wiki/S", "https://en.m.wikipedia.org/wiki/D"]
      ≠ ["https://en.m.wikipedia.org/wiki/D", "-", "https://en.m.wikipedia.org/wiki/S"].reverse ∧
    getPath frontHyphen rearHyphen ≠ joinedPath frontHyphen rearHyphen ∧
    getPath rearHyphen frontHyphen ≠ joinedPath rearHyphen frontHyphen := by
  decide

/-! ## C19: the nodes of a search form two trees -/

theorem processNode_all (P : node → Prop) (side : Int) (m : List (String × node))
    (q : List node) (c : Int) (ch : List (node × Int)) (paths : List String)
    (hm : ∀ k v, (k, v) ∈ m → P v ∧ v.url = k)
    (hq : ∀ x ∈ q, P x ∧ x.pathId = side)
    (hch : ∀ t ∈ ch, P t.1 ∧ t.1.pathId = side ∧ t.2 = side) :
    (∀ k v, (k, v) ∈ (processNode m q c ch side paths).1 → P v ∧ v.url = k) ∧
    (∀ x ∈ (processNode m q c ch side paths).2.1, P x ∧ x.pathId = side) ∧
    (∀ t ∈ (processNode m q c ch side paths).2.2.2.1,
      P t.1 ∧ t.1.pathId = side ∧ t.2 = side) := by
  cases q with
  | nil => exact ⟨hm, hq, hch⟩
  | cons popped rest =>
      have hpop := hq popped (List.mem_cons_self _ _)
      have hrest : ∀ x ∈ rest, P x ∧ x.pathId = side :=
        fun x hx => hq x (List.mem_cons_of_mem _ hx)
      cases h : m.lookup popped.url with
      | none =>
          rw [processNode_fresh m popped rest c ch side paths h]
          refine ⟨?_, hrest, ?_⟩
          · intro k v hkv
            rcases List.mem_cons.1 hkv with e | e
            · simp only [Prod.mk.injEq] at e
              obtain ⟨ek, ev⟩ := e
              subst ek ev
              exact ⟨hpop.1, rfl⟩
            · exact hm k v e
          · intro t ht
            rcases List.mem_append.1 ht with e | e
            · exact hch t e
            · simp only [List.mem_singleton] at e
              subst e
              exact ⟨hpop.1, hpop.2, rfl⟩
      | some val =>
          by_cases hs : val.pathId = side
          · rw [processNode_same_side m popped rest c ch side paths val h hs]
            exact ⟨hm, hrest, hch⟩
          · rw [processNode_meeting m popped rest c ch side paths val h hs]
            exact ⟨hm, hrest, hch⟩

theorem Round.step_all (P : node → Prop) (r : Round) (h : RoundAll P r) :
    RoundAll P r.step := by
  obtain ⟨hm, h1, h2, hc1, hc2⟩ := h
  have a := processNode_all P PathIdFromTheFront r.urlToNodeMap r.q1 r.chan1ThreadCount
    r.chan1 r.paths hm h1 hc1
  have b := processNode_all P PathIdFromTheRear
    (processNode r.urlToNodeMap r.q1 r.chan1ThreadCount r.chan1 PathIdFromTheFront r.paths).1
    r.q2 r.chan2ThreadCount r.chan2
    (processNode r.urlToNodeMap r.q1 r.chan1ThreadCount r.chan1 PathIdFromTheFront
      r.paths).2.2.2.2 a.1 h2 hc2
  rw [Round.step_eq]
  exact ⟨b.1, a.2.1, b.2.1, a.2.2, b.2.2⟩

theorem runRound_all (P : node → Prop) (m : List (String × node)) (q1 q2 : List node)
    (hm : ∀ k v, (k, v) ∈ m → P v ∧ v.url = k)
    (h1 : ∀ x ∈ q1, P x ∧ x.pathId = PathIdFromTheFront)
    (h2 : ∀ x ∈ q2, P x ∧ x.pathId = PathIdFromTheRear) :
    RoundAll P (runRound m q1 q2) :=
  runRound_induct (RoundAll P) (Round.step_all P) m q1 q2
    ⟨hm, h1, h2, fun _ h => absurd h (List.not_mem_nil _),
      fun _ h => absurd h (List.not_mem_nil _)⟩

theorem receiveBatches_mem :
    ∀ (dels : List (Option (List node))) (c : Nat) (acc q : List node),
      receiveBatches c dels acc = Outcome.returned q →
      ∀ x ∈ q, x ∈ acc ∨ ∃ b, some b ∈ dels ∧ x ∈ b := by
  intro dels
  induction dels with
  | nil =>
      intro c acc q h x hx
      cases c with
      | zero =>
          simp only [receiveBatches, Outcome.returned.injEq] at h
          subst h
          exact Or.inl hx
      | succ c => simp [receiveBatches] at h
  | cons del dels ih =>
      intro c acc q h x hx
      cases c with
      | zero =>
          simp only [receiveBatches, Outcome.returned.injEq] at h
          subst h
          exact Or.inl hx
      | succ c =>
          cases del with
          | none => simp [receiveBatches] at h
          | some b =>
              simp only [receiveBatches] at h
              rcases ih c (acc ++ b) q h x hx with e | ⟨b2, hb2, hx2⟩
              · rcases List.mem_append.1 e with e | e
                · exact Or.inl e
                · exact Or.inr ⟨b, List.mem_cons_self _ _, e⟩
              · exact Or.inr ⟨b2, List.mem_cons_of_mem _ hb2, hx2⟩

theorem addThreadToNextQueue_mem (dels : List (Option (List node))) (c : Int)
    (acc q : List node) (h : addThreadToNextQueue c dels acc = Outcome.returned q) :
    ∀ x ∈ q, x ∈ acc ∨ ∃ b, some b ∈ dels ∧ x ∈ b :=
  receiveBatches_mem dels c.toNat acc q h

theorem passChildNodesToChan_mem (web : Web) (a : node) (i : Int) (b : List node) (x : node)
    (h : passChildNodesToChan web a i = some b) (hx : x ∈ b) :
    ∃ links link, getChildWikiLinksForWikiPage web a.url = LinksResult.ok links ∧
      link ∈ links ∧ link ≠ "" ∧ x = node.mk (some a) i link := by
  unfold passChildNodesToChan at h
  cases hl : getChildWikiLinksForWikiPage web a.url with
  | fatal => rw [hl] at h; simp at h
  | error =>
      rw [hl] at h
      simp only [Option.some.injEq] at h
      subst h
      simp at hx
  | ok links =>
      rw [hl] at h
      simp only [Option.some.injEq] at h
      subst h
      obtain ⟨link, hlink, e⟩ := List.mem_map.1 hx
      rw [List.mem_filter] at hlink
      exact ⟨links, link, rfl, hlink.1, by simpa using hlink.2, e.symm⟩

theorem fanIn_descends (web : Web) (sched : List (node × Int) → List (node × Int))
    (s d : String) (hsched : ∀ l, (sched l).Perm l) (side : Int) (c : Int)
    (ch : List (node × Int)) (q : List node)
    (hch : ∀ t ∈ ch, Descends web s d t.1 ∧ t.1.pathId = side ∧ t.2 = side)
    (h : addThreadToNextQueue c (deliveries web sched ch) [] = Outcome.returned q) :
    ∀ x ∈ q, Descends web s d x ∧ x.pathId = side := by
  intro x hx
  rcases addThreadToNextQueue_mem _ _ _ _ h x hx with e | ⟨b, hb, hxb⟩
  · exact absurd e (List.not_mem_nil _)
  · obtain ⟨t, ht, hbt⟩ := List.mem_map.1 hb
    have htch : t ∈ ch := (hsched ch).mem_iff.1 ht
    obtain ⟨hd, hp, hside⟩ := hch t htch
    obtain ⟨links, link, hl, hlink, hne, e⟩ := passChildNodesToChan_mem web t.1 t.2 b x hbt hxb
    subst e
    refine ⟨?_, hside⟩
    simp only [Descends]
    exact ⟨hne, ⟨links, hl, hlink⟩, by rw [hside, hp], hd⟩

theorem roundStart_descends (web : Web) (sched : List (node × Int) → List (node × Int))
    (s d : String) (hsched : ∀ l, (sched l).Perm l) :
    ∀ (n : Nat) (st : List (String × node) × List node × List node),
      roundStart web sched s d n = some st →
      (∀ k v, (k, v) ∈ st.1 → Descends web s d v ∧ v.url = k) ∧
      (∀ x ∈ st.2.1, Descends web s d x ∧ x.pathId = PathIdFromTheFront) ∧
      (∀ x ∈ st.2.2, Descends web s d x ∧ x.pathId = PathIdFromTheRear) := by
  intro n
  induction n with
  | zero =>
      intro st h
      simp only [roundStart, Option.some.injEq] at h
      subst h
      refine ⟨fun _ _ h => absurd h (List.not_mem_nil _), ?_, ?_⟩
      · intro x hx
        simp only [List.mem_singleton] at hx
        subst hx
        exact ⟨by simp [buildNodeFromArticle, Descends, keyOf, node.url], rfl⟩
      · intro x hx
        simp only [List.mem_singleton] at hx
        subst hx
        exact ⟨by simp [buildNodeFromArticle, Descends, keyOf, node.url], rfl⟩
  | succ n ih =>
      intro st h
      obtain ⟨m, q1, q2, hn, _, hc⟩ := roundStart_succ web sched s d n st h
      obtain ⟨hm, h1, h2⟩ := ih _ hn
      obtain ⟨hrm, _, _, hc1, hc2⟩ := runRound_all (Descends web s d) m q1 q2 hm h1 h2
      obtain ⟨e1, e2, e3⟩ := collectRound_returned web sched _ st hc
      refine ⟨by rw [e1]; exact hrm, ?_, ?_⟩
      · exact fanIn_descends web sched s d hsched _ _ _ _ hc1 e2
      · exact fanIn_descends web sched s d hsched _ _ _ _ hc2 e3

theorem Descends_root (web : Web) (s d : String) : ∀ x : node, Descends web s d x →
    (x.pathId = PathIdFromTheFront ∧ (keysFromRoot x).head? = some (keyOf s)) ∨
    (x.pathId = PathIdFromTheRear ∧ (keysFromRoot x).head? = some (keyOf d))
  | node.mk none i u, h => by
      simp only [Descends] at h
      rcases h with ⟨hi, hu⟩ | ⟨hi, hu⟩
      · exact Or.inl ⟨hi, by simp [keysFromRoot, hu]⟩
      · exact Or.inr ⟨hi, by simp [keysFromRoot, hu]⟩
  | node.mk (some p) i u, h => by
      simp only [Descends] at h
      obtain ⟨_, _, hi, hp⟩ := h
      have hne : keysFromRoot p ≠ [] := by
        rw [keysFromRoot_eq p]
        simp
      rcases Descends_root web s d p hp with ⟨hs, hk⟩ | ⟨hs, hk⟩
      · refine Or.inl ⟨by simp only [node.pathId]; rw [hi, hs], ?_⟩
        simp only [keysFromRoot]
        rw [List.head?_append_of_ne_nil _ hne]
        exact hk
      · refine Or.inr ⟨by simp only [node.pathId]; rw [hi, hs], ?_⟩
        simp only [keysFromRoot]
        rw [List.head?_append_of_ne_nil _ hne]
        exact hk

/-- C19: in every round of a search, every node of the two queues and of the registry is a
root (no predecessor; the start key with the front side, or the destination key with the
rear side) or has a non-empty key among the links the lookup returned for the key of its
predecessor and the side of its predecessor, and so up its whole chain; hence every chain
ends in the root of its own side, the registry stores each node under its key, and each
queue holds nodes of its side only. -/
theorem search_nodes_descend (web : Web) (sched : List (node × Int) → List (node × Int))
    (s d : String) (n : Nat) (st : List (String × node) × List node × List node)
    (hsched : ∀ l, (sched l).Perm l) (h : roundStart web sched s d n = some st) :
    (∀ x ∈ st.2.1, Descends web s d x ∧ x.pathId = PathIdFromTheFront) ∧
    (∀ x ∈ st.2.2, Descends web s d x ∧ x.pathId = PathIdFromTheRear) ∧
    (∀ k v, (k, v) ∈ st.1 → Descends web s d v ∧ v.url = k) ∧
    (∀ k v, (k, v) ∈ (runRound st.1 st.2.1 st.2.2).urlToNodeMap →
      Descends web s d v ∧ v.url = k) ∧
    (∀ x, Descends web s d x →
      (x.pathId = PathIdFromTheFront ∧ (keysFromRoot x).head? = some (keyOf s)) ∨
      (x.pathId = PathIdFromTheRear ∧ (keysFromRoot x).head? = some (keyOf d))) := by
  obtain ⟨hm, h1, h2⟩ := roundStart_descends web sched s d hsched n st h
  exact ⟨h1, h2, hm, (runRound_all (Descends web s d) _ _ _ hm h1 h2).1,
    Descends_root web s d⟩

/-- Witness for C19: the second round of the search in `webCommon`, with both roots
registered and `X` in both queues. -/
theorem search_nodes_descend_witness :
    (∀ l : List (node × Int), (id l).Perm l) ∧
    roundStart webCommon id "S" "D" 1
      = some ([(keyOf "D", rootD), (keyOf "S", rootS)], [frontX], [rearX]) ∧
    (∀ x ∈ [frontX], Descends webCommon "S" "D" x ∧ x.pathId = PathIdFromTheFront) ∧
    (∀ x ∈ [rearX], Descends webCommon "S" "D" x ∧ x.pathId = PathIdFromTheRear) ∧
    (∀ k v, (k, v) ∈ [(keyOf "D", rootD), (keyOf "S", rootS)] →
      Descends webCommon "S" "D" v ∧ v.url = k) ∧
    (∀ k v, (k, v) ∈ (runRound [(keyOf "D", rootD), (keyOf "S", rootS)] [frontX]
        [rearX]).urlToNodeMap → Descends webCommon "S" "D" v ∧ v.url = k) ∧
    (∀ x, Descends webCommon "S" "D" x →
      (x.pathId = PathIdFromTheFront ∧ (keysFromRoot x).head? = some (keyOf "S")) ∨
      (x.pathId = PathIdFromTheRear ∧ (keysFromRoot x).head? = some (keyOf "D"))) :=
  ⟨fun l => List.Perm.refl l, by decide,
    search_nodes_descend webCommon id "S" "D" 1
      ([(keyOf "D", rootD), (keyOf "S", rootS)], [frontX], [rearX])
      (fun l => List.Perm.refl l) (by decide)⟩

/-! ## The inner loop empties both queues -/

theorem processNode_queue (m : List (String × node)) (q : List node) (c : Int)
    (ch : List (node × Int)) (side : Int) (paths : List String) :
    (processNode m q c ch side paths).2.1 = q.tail := by
  cases q with
  | nil => rfl
  | cons popped rest =>
      cases h : m.lookup popped.url with
      | none => rw [processNode_fresh m popped rest c ch side paths h]; rfl
      | some val =>
          by_cases hs : val.pathId = side
          · rw [processNode_same_side m popped rest c ch side paths val h hs]; rfl
          · rw [processNode_meeting m popped rest c ch side paths val h hs]; rfl

theorem drainQueues_queues_empty :
    ∀ (n : Nat) (r : Round), r.q1.length + r.q2.length ≤ n →
      (drainQueues n r).q1 = [] ∧ (drainQueues n r).q2 = [] := by
  intro n
  induction n with
  | zero =>
      intro r hle
      exact ⟨List.length_eq_zero.1 (by simp only [drainQueues]; omega),
        List.length_eq_zero.1 (by simp only [drainQueues]; omega)⟩
  | succ n ih =>
      intro r hle
      by_cases hq : 0 < r.q1.length ∨ 0 < r.q2.length
      · have h1 : r.step.q1 = r.q1.tail := by rw [Round.step_eq]; exact processNode_queue _ _ _ _ _ _
        have h2 : r.step.q2 = r.q2.tail := by rw [Round.step_eq]; exact processNode_queue _ _ _ _ _ _
        have := ih r.step (by rw [h1, h2, List.length_tail, List.length_tail]; omega)
        simpa only [drainQueues, if_pos hq] using this
      · simp only [drainQueues, if_neg hq]
        exact ⟨List.length_eq_zero.1 (by omega), List.length_eq_zero.1 (by omega)⟩

/-- The passes `runRound` gives the inner loop are enough: it ends with both queues
empty, as the loop of the program does. -/
theorem runRound_queues_empty (m : List (String × node)) (q1 q2 : List node) :
    (runRound m q1 q2).q1 = [] ∧ (runRound m q1 q2).q2 = [] :=
  drainQueues_queues_empty _ _ (le_refl _)

end PureGoRace
